import Mathlib

/-!
Verification of the Ralph orchestration pipeline (SKAD-METHOD).

This file gives a shallow embedding, in Lean 4, of the orchestration
scripts of the repository:

* `scripts/ralph-extract-task.js` — the Task Manifest Extractor;
* `scripts/ralph.sh`              — the Execution Supervisor (watchdog loop
  with iteration timeout, stall detection, and completion-marker check);
* `scripts/ralph-sprint-status.js` — the State Store tool (ledger parsing,
  next-story discovery, epic story listing, in-place status updates);
* `scripts/ralph-bmad.sh`         — the pipeline orchestrator (task loop,
  CR gate, epic completion check, outer chaining loop).

Pure fragments of the sources are translated into executable Lean
functions; effectful fragments (worker invocations, shell command
execution, the file system) are modelled by explicit state passing and
oracle parameters describing the observable outcomes of the external
calls.  Theorems at the end of the file settle the specification claims
against these definitions.
-/

namespace Ralph

/-! ## Generic character/string helpers

The JS sources use `String.prototype.includes`, `startsWith`, regexes
over `[\w-]`, `\d`, `\s`, and `trim()`.  We model these over `List Char`
(the `data` of a `String`), restricted to the character classes the
ledger and marker formats actually use.
-/

/-- Function `charsBegins p l` is true when `p` is a leading segment of `l`
(JS `startsWith` on character lists). -/
def charsBegins : List Char → List Char → Bool
  | [], _ => true
  | _ :: _, [] => false
  | p :: ps, c :: cs => p == c && charsBegins ps cs

/-- Function `charsHasSub n h` is true when `n` occurs contiguously inside `h`
(JS `String.prototype.includes`). -/
def charsHasSub (needle : List Char) : List Char → Bool
  | [] => needle.isEmpty
  | c :: t => charsBegins needle (c :: t) || charsHasSub needle t

/-- JS `s.startsWith(p)`. -/
def strBegins (s p : String) : Bool := charsBegins p.data s.data

/-- JS `s.includes(n)` / output-contains-marker checks. -/
def strHasSub (s n : String) : Bool := charsHasSub n.data s.data

/-- Whitespace as used by JS `trim()` / `\s` on single lines of the
ledger (space, tab, carriage return, newline). -/
def isWs (c : Char) : Bool := c == ' ' || c == '\t' || c == '\r' || c == '\n'

/-- JS word characters plus dash, the key character class `[\w-]` of
`ralph-sprint-status.js`. -/
def isWordDash (c : Char) : Bool :=
  c.isAlpha || c.isDigit || c == '_' || c == '-'

/-- JS `trim()`: strip whitespace from both ends. -/
def trimChars (cs : List Char) : List Char :=
  ((cs.dropWhile isWs).reverse.dropWhile isWs).reverse

/-! ## Task Manifest Extractor (`scripts/ralph-extract-task.js`)

A task element of the Ralph Tasks JSON array.  Fields are `Option`s
because JSON objects may omit them; `passes = none` models a missing or
non-boolean `passes` value (the JS code tests `t.passes === false` and
`t.passes === true`, which are both false for a missing field).
-/

structure TaskJson where
  id : Option String
  title : Option String
  steps : Option (List String)
  acceptanceCriteria : Option (List String)
  checkCommands : Option (List String)
  passes : Option Bool
deriving DecidableEq

/-- Output of `ralph-extract-task.js` on success: either the all-done
signal or the first not-yet-passing task with a running count. -/
inductive ExtractOut where
  | done (totalTasks : Nat)
  | next (taskId title : Option String)
      (steps acceptanceCriteria checkCommands : List String)
      (completedCount totalTasks : Nat)
deriving DecidableEq

/-- Core of the extractor: `tasks.find((t) => t.passes === false)`,
with the completed count `tasks.filter((t) => t.passes === true).length`
and the option-field defaults `|| []` from the JS source. -/
def extractTask (tasks : List TaskJson) : ExtractOut :=
  match tasks.find? (fun t => t.passes == some false) with
  | some t =>
      ExtractOut.next t.id t.title (t.steps.getD []) (t.acceptanceCriteria.getD [])
        (t.checkCommands.getD [])
        ((tasks.filter (fun u => u.passes == some true)).length) tasks.length
  | none => ExtractOut.done tasks.length

/-- How the story file's Ralph Tasks JSON section parsed: the section
heading plus fenced block may be absent, the block may fail
`JSON.parse`, or it yields a task array. -/
inductive ManifestParse where
  | noBlock
  | badJson
  | ok (tasks : List TaskJson)

/-- The whole `ralph-extract-task.js` run on a story file whose manifest
section parsed as `p`: both failure modes print to stderr and
`process.exit(1)` (modelled as `Except.error`); otherwise the extractor
output is printed and the process exits 0. -/
def ralphExtractTask : ManifestParse → Except String ExtractOut
  | ManifestParse.noBlock => Except.error "No Ralph Tasks JSON found in story file"
  | ManifestParse.badJson => Except.error "Failed to parse Ralph Tasks JSON"
  | ManifestParse.ok ts => Except.ok (extractTask ts)

/-! Concrete task lists used by witnesses and counterexamples. -/

/-- A two-task manifest: the first task already passes, the second does not. -/
def sampleTasks : List TaskJson :=
  [⟨some "task-1", some "Set up schema", some ["step a"], some ["AC1"], some ["npm test"], some true⟩,
   ⟨some "task-2", some "Wire endpoint", some ["step b"], some ["AC2"], some ["npm run lint"], some false⟩]

/-- A manifest whose single task is missing its required fields
(`title`, `passes`, …): only `id` is present. -/
def missingFieldTasks : List TaskJson :=
  [⟨some "task-1", none, none, none, none, none⟩]

/-! ## Execution Supervisor (`scripts/ralph.sh`)

One iteration of `ralph.sh` starts the worker (`claude -p … &`) and then
runs the watchdog loop: while the worker process is alive, every ~5s it
computes `ELAPSED` and `SINCE_CHANGE`, kills the worker on iteration
timeout, refreshes the workspace fingerprint, and kills the worker on a
stall.  We model wall-clock instants as `Nat` seconds, fingerprints as
`Nat` hashes, and the sequence of watchdog wake-ups observed while the
worker was still running as a list of polls; an exhausted list means the
worker terminated naturally before the next wake-up.
-/

/-- Configuration `ITERATION_TIMEOUT` / `STALL_TIMEOUT` of `ralph.sh`. -/
structure SupervisorCfg where
  iterationTimeout : Nat
  stallTimeout : Nat
deriving DecidableEq

/-- Default `RALPH_ITERATION_TIMEOUT` (480s). -/
def defaultIterationTimeout : Nat := 480

/-- Default `RALPH_STALL_TIMEOUT` (180s). -/
def defaultStallTimeout : Nat := 180

/-- The hard-coded stall grace period: `[ $ELAPSED -gt 60 ]`. -/
def stallGracePeriod : Nat := 60

/-- Mutable watchdog state: `LAST_CHANGE_TIME` and `PRE_FINGERPRINT`. -/
structure WatchState where
  lastChangeTime : Nat
  fingerprint : Nat
deriving DecidableEq

/-- One watchdog wake-up while the worker is running: the current time
`NOW=$(date +%s)` and the freshly sampled workspace fingerprint. -/
structure Poll where
  now : Nat
  fingerprint : Nat
deriving DecidableEq

/-- Result of one pass through the watchdog loop body. -/
inductive PollStep where
  | timedOut
  | stalled
  | keepPolling (s : WatchState)
deriving DecidableEq

/-- The body of the `while kill -0 "$CLAUDE_PID"` loop in `ralph.sh`:
compute `ELAPSED` and `SINCE_CHANGE`, check the iteration timeout first,
then record any fingerprint change, then check the stall condition
(which uses the `SINCE_CHANGE` computed at the top of the body, before
the fingerprint refresh, exactly as the script does). -/
def pollStep (cfg : SupervisorCfg) (iterStart : Nat) (s : WatchState) (p : Poll) : PollStep :=
  let elapsed := p.now - iterStart
  let sinceChange := p.now - s.lastChangeTime
  if elapsed ≥ cfg.iterationTimeout then
    PollStep.timedOut
  else
    let s2 : WatchState :=
      if p.fingerprint ≠ s.fingerprint then ⟨p.now, p.fingerprint⟩ else s
    if elapsed > stallGracePeriod ∧ sinceChange ≥ cfg.stallTimeout then
      PollStep.stalled
    else
      PollStep.keepPolling s2

/-- How the watchdog loop ended: the worker was killed on timeout or
stall, or the poll sequence ran out because the worker terminated
naturally (`kill -0` failed). -/
inductive WatchOutcome where
  | timedOut
  | stalled
  | finished
deriving DecidableEq

/-- The watchdog loop over the polls observed while the worker ran. -/
def watchdog (cfg : SupervisorCfg) (iterStart : Nat) :
    WatchState → List Poll → WatchOutcome
  | _, [] => WatchOutcome.finished
  | s, p :: ps =>
    match pollStep cfg iterStart s p with
    | PollStep.timedOut => WatchOutcome.timedOut
    | PollStep.stalled => WatchOutcome.stalled
    | PollStep.keepPolling s2 => watchdog cfg iterStart s2 ps

/-- The literal completion marker `ralph.sh` greps the captured output
for. -/
def completionMarker : String := "<promise>COMPLETE</promise>"

/-- Classification of one supervised attempt, §4.2 of the spec. -/
inductive AttemptOutcome where
  | passed
  | failed
  | timeout
  | stalled
deriving DecidableEq

/-- After the watchdog loop, `ralph.sh` reports `TIMEOUT` / `STALLED`
when the corresponding flag was set, and otherwise checks the captured
output for the completion marker
(`[[ "$result" == *"<promise>COMPLETE</promise>"* ]]`). -/
def classifyAttempt (w : WatchOutcome) (output : String) : AttemptOutcome :=
  match w with
  | WatchOutcome.timedOut => AttemptOutcome.timeout
  | WatchOutcome.stalled => AttemptOutcome.stalled
  | WatchOutcome.finished =>
    if strHasSub output completionMarker then AttemptOutcome.passed
    else AttemptOutcome.failed

/-- One whole supervised attempt: the watchdog starts with
`LAST_CHANGE_TIME=$ITER_START` and the pre-iteration fingerprint, runs
over the observed polls, and the result is classified against the
captured output. -/
def runSupervisorAttempt (cfg : SupervisorCfg) (iterStart initialFp : Nat)
    (polls : List Poll) (output : String) : AttemptOutcome :=
  classifyAttempt (watchdog cfg iterStart ⟨iterStart, initialFp⟩ polls) output

/-! ## State Store (`scripts/ralph-sprint-status.js`)

The ledger `sprint-status.yaml` is a flat line-oriented file.  We model
a file as its list of lines (JS reads the file and splits on "\n";
writing joins with "\n", so lines are a faithful representation of the
content). -/

/-- One parsed ledger entry: key and status value. -/
structure LedgerEntry where
  key : String
  status : String
deriving DecidableEq

/-- The JS regex `^([\w-]+):\s*(.+)$` applied to an already-trimmed
line: a nonempty run of `[\w-]` characters, a colon, optional
whitespace, and a nonempty value (the rest of the line). -/
def keyValueSplit (cs : List Char) : Option (List Char × List Char) :=
  let k := cs.takeWhile isWordDash
  let rest := cs.dropWhile isWordDash
  if k.isEmpty then none
  else
    match rest with
    | [] => none
    | c :: rest2 =>
      if c = ':' then
        let v := rest2.dropWhile isWs
        if v.isEmpty then none else some (k, v)
      else none

/-- The top-level metadata keys `parseSprintStatus` skips. -/
def metadataKeys : List String :=
  ["generated", "project", "project_key", "tracking_system", "story_location",
   "development_status"]

/-- One line of `parseSprintStatus`: trim, skip blanks and `#` comments,
match the key/value regex, and skip metadata keys. -/
def parseLine (line : String) : Option LedgerEntry :=
  let t := trimChars line.data
  if t.isEmpty then none
  else if t.head? == some '#' then none
  else
    match keyValueSplit t with
    | none => none
    | some (k, v) =>
      let key := String.mk k
      if metadataKeys.contains key then none
      else some ⟨key, String.mk (trimChars v)⟩

/-- Model of `parseSprintStatus`: the ledger entries of a file, line by line. -/
def parseSprintStatus (lines : List String) : List LedgerEntry :=
  lines.filterMap parseLine

/-- The story-key numbering pattern `^\d+-\d+-`. -/
def storyKeyNumbering (cs : List Char) : Bool :=
  let ds := cs.takeWhile Char.isDigit
  let r1 := cs.dropWhile Char.isDigit
  if ds.isEmpty then false
  else
    match r1 with
    | [] => false
    | c :: r2 =>
      if c = '-' then
        let ds2 := r2.takeWhile Char.isDigit
        let r3 := r2.dropWhile Char.isDigit
        if ds2.isEmpty then false
        else
          match r3 with
          | [] => false
          | c2 :: _ => c2 == '-'
      else false

/-- Model of `isStoryKey`: matches `^\d+-\d+-` and does not contain
`retrospective`. -/
def isStoryKey (key : String) : Bool :=
  storyKeyNumbering key.data && !(strHasSub key "retrospective")

/-- Model of `isEpicKey`: matches `^epic-\d+$`. -/
def isEpicKey (key : String) : Bool :=
  charsBegins "epic-".data key.data &&
    (let rest := key.data.drop 5
     !rest.isEmpty && rest.all Char.isDigit)

/-- Decimal value of a digit character (`parseInt` digit step). -/
def digitVal (c : Char) : Nat := c.toNat - 48

/-- Model of `parseInt(ds, 10)` on a digit string. -/
def digitsToNat (ds : List Char) : Nat :=
  ds.foldl (fun acc c => 10 * acc + digitVal c) 0

/-- Model of `epicNumFromKey`: the JS match on `^(\d+)-` then `parseInt`. -/
def epicNumFromKey (key : String) : Option Nat :=
  let ds := key.data.takeWhile Char.isDigit
  let rest := key.data.dropWhile Char.isDigit
  if ds.isEmpty then none
  else
    match rest with
    | [] => none
    | c :: _ => if c = '-' then some (digitsToNat ds) else none

/-- Model of `storyNumFromKey`: the JS match on `^\d+-(\d+)-` then `parseInt`. -/
def storyNumFromKey (key : String) : Option Nat :=
  let ds := key.data.takeWhile Char.isDigit
  let r1 := key.data.dropWhile Char.isDigit
  if ds.isEmpty then none
  else
    match r1 with
    | [] => none
    | c :: r2 =>
      if c = '-' then
        let ds2 := r2.takeWhile Char.isDigit
        let r3 := r2.dropWhile Char.isDigit
        if ds2.isEmpty then none
        else
          match r3 with
          | [] => none
          | c2 :: _ => if c2 = '-' then some (digitsToNat ds2) else none
      else none

/-- Constant `STORY_DIR` of `ralph-sprint-status.js`. -/
def storyDir : String := "_bmad-output/implementation-artifacts"

/-- The payload of a non-done `next-story` answer. -/
structure NextStoryInfo where
  storyKey : String
  status : String
  epicNum : Option Nat
  storyNum : Option Nat
  filePath : String
  needsCS : Bool
deriving DecidableEq

/-- Output of the `next-story` operation. -/
inductive NextStoryOut where
  | allDone
  | story (info : NextStoryInfo)
deriving DecidableEq

/-- Model of `nextStory`: filter the ledger to story keys, then return the first
`in-progress` story, else the first `ready-for-dev`, else the first
`backlog` (flagged `needsCS`), else the done signal. -/
def nextStory (entries : List LedgerEntry) : NextStoryOut :=
  let stories := entries.filter (fun e => isStoryKey e.key)
  match stories.find? (fun s => s.status == "in-progress") with
  | some s =>
    NextStoryOut.story ⟨s.key, s.status, epicNumFromKey s.key, storyNumFromKey s.key,
      storyDir ++ "/" ++ s.key ++ ".md", false⟩
  | none =>
    match stories.find? (fun s => s.status == "ready-for-dev") with
    | some s =>
      NextStoryOut.story ⟨s.key, s.status, epicNumFromKey s.key, storyNumFromKey s.key,
        storyDir ++ "/" ++ s.key ++ ".md", false⟩
    | none =>
      match stories.find? (fun s => s.status == "backlog") with
      | some s =>
        NextStoryOut.story ⟨s.key, s.status, epicNumFromKey s.key, storyNumFromKey s.key,
          storyDir ++ "/" ++ s.key ++ ".md", true⟩
      | none => NextStoryOut.allDone

/-- Output of the `epic-stories` operation. -/
structure EpicStoriesOut where
  epicStatus : String
  allDone : Bool
  stories : List (String × String × Option Nat)
deriving DecidableEq

/-- Model of `epicStories`: the ledger entries whose key is a story key starting
with `"<epicNum>-"`, the epic entry's status (or `"unknown"`), and the
all-done flag (nonempty and every story `done`). -/
def epicStories (epicNum : String) (entries : List LedgerEntry) : EpicStoriesOut :=
  let stories := entries.filter
    (fun e => isStoryKey e.key && strBegins e.key (epicNum ++ "-"))
  let epicStatus :=
    match entries.find? (fun e => e.key == "epic-" ++ epicNum) with
    | some e => e.status
    | none => "unknown"
  ⟨epicStatus, !stories.isEmpty && stories.all (fun s => s.status == "done"),
   stories.map (fun s => (s.key, s.status, storyNumFromKey s.key))⟩

/-- Does a raw ledger line match key `key` in `updateStatus`
(`trimmed.match(/^([\w-]+):\s*(.+)$/)` with `match[1] === key`)? -/
def lineMatchesKey (key : String) (l : String) : Bool :=
  match keyValueSplit (trimChars l.data) with
  | some (k, _) => k == key.data
  | none => false

/-- The replacement line `updateStatus` writes: the original line's
leading whitespace, then `key: newStatus`. -/
def rewrittenLine (key newStatus : String) (l : String) : String :=
  String.mk (l.data.takeWhile isWs) ++ key ++ ": " ++ newStatus

/-- The status value a ledger line carries according to the
`updateStatus` regex (the second capture group). -/
def lineValue (l : String) : Option (List Char) :=
  match keyValueSplit (trimChars l.data) with
  | some kv => some kv.2
  | none => none

/-- The line scan of `updateStatus`: rewrite the first line whose key
matches, leave everything else untouched, `none` when no line matches. -/
def updateLines (key newStatus : String) : List String → Option (List String)
  | [] => none
  | l :: ls =>
    if lineMatchesKey key l then
      some (rewrittenLine key newStatus l :: ls)
    else
      match updateLines key newStatus ls with
      | some ls2 => some (l :: ls2)
      | none => none

/-- The `update-status` operation: on a match the file is rewritten with
the one line replaced; otherwise the tool prints an error and exits 1
without writing. -/
def updateStatus (key newStatus : String) (lines : List String) :
    Except String (List String) :=
  match updateLines key newStatus lines with
  | some ls => Except.ok ls
  | none => Except.error ("Key '" ++ key ++ "' not found in sprint-status.yaml")

/-- The ledger file content after an `update-status` call: unchanged
when the call failed (the error path exits before `writeFileSync`). -/
def fileAfterUpdate (key newStatus : String) (lines : List String) : List String :=
  match updateLines key newStatus lines with
  | some ls => ls
  | none => lines

/-! ## Pipeline orchestrator (`scripts/ralph-bmad.sh`)

The shell functions `run_cr_gate`, `run_task_loop`,
`check_epic_complete` and the outer chaining loop are modelled as pure
functions over oracles describing the outcomes of the external calls
(the `claude` worker, `npm run build`, `npx vitest`, …).  Wall-clock
instants, attempt counters and iteration counters are `Nat`. -/

/-- Tri-state review signal after interpreting the CR agent output;
`unrecognized` covers a missing or unparsable `<cr-signal>` (the script
treats it as `CR-BLOCKED`). -/
inductive CRSignalText where
  | passSig
  | fixedSig
  | blockedSig
  | unrecognized
deriving DecidableEq

/-- Internal CR gate state `CR_RESULT`. -/
inductive CRResult where
  | pass
  | fixed
  | blocked
deriving DecidableEq

/-- Signal interpretation of `run_cr_gate`: the three recognized
`<cr-signal>` markers, anything else conservatively `CR-BLOCKED`. -/
def interpretCRSignal : CRSignalText → CRResult
  | CRSignalText.passSig => CRResult.pass
  | CRSignalText.fixedSig => CRResult.fixed
  | CRSignalText.blockedSig => CRResult.blocked
  | CRSignalText.unrecognized => CRResult.blocked

/-- Default `MAX_CR_ITERATIONS` (`CR_MAX_ITERATIONS` unset, third
positional argument unset). -/
def defaultMaxCRIterations : Nat := 3

/-- The `while [ "$CR_RESULT" = "CR-FIXED" ] && [ $CR_ITERATION -lt
$MAX_CR_ITERATIONS ]` loop: `signals n` is the interpreted signal of CR
iteration `n` (1-based).  Returns the final `(CR_ITERATION,
CR_RESULT)`. -/
def crLoop (signals : Nat → CRSignalText) (maxIter : Nat) (iter : Nat) (res : CRResult) :
    Nat × CRResult :=
  if res = CRResult.fixed ∧ iter < maxIter then
    crLoop signals maxIter (iter + 1) (interpretCRSignal (signals (iter + 1)))
  else (iter, res)
termination_by maxIter - iter

/-- Outcome of `run_cr_gate`: skipped (no CR prompt template, return 0
with no status change), or finished with the final iteration count and
result, the `update_status` transition performed, and the return code
(`true` = return 0). -/
inductive CRGateOut where
  | skipped
  | finished (iterations : Nat) (result : CRResult) (update : String × String) (exitOk : Bool)
deriving DecidableEq

/-- Model of `run_cr_gate`: starting from `CR_RESULT=CR-FIXED` and
`CR_ITERATION=0`, loop; afterwards `CR-PASS` marks the story done and
returns 0, anything else (blocked, or still fixed with the budget
exhausted) marks the story review and returns 1. -/
def runCrGate (templateFound : Bool) (signals : Nat → CRSignalText) (maxIter : Nat) :
    CRGateOut :=
  if templateFound then
    let nr := crLoop signals maxIter 0 CRResult.fixed
    if nr.2 = CRResult.pass then
      CRGateOut.finished nr.1 nr.2 ("in-progress", "done") true
    else
      CRGateOut.finished nr.1 nr.2 ("in-progress", "review") false
  else CRGateOut.skipped

/-- Model of the `auto_verify_task` node helper: set `passes` to true on
the first task whose `id` equals the given id, leave the rest alone. -/
def setTaskPasses : List TaskJson → Option String → List TaskJson
  | [], _ => []
  | t :: ts, tid =>
    if t.id == tid then
      ⟨t.id, t.title, t.steps, t.acceptanceCriteria, t.checkCommands, some true⟩ :: ts
    else t :: setTaskPasses ts tid

/-- Model of `auto_verify_task`: with no `checkCommands` the task cannot
be auto-verified (return 1); otherwise `cmdsOk` says whether every
declared command exited 0, in which case the story file's manifest is
rewritten with the task marked passing. -/
def autoVerifyTask (cmdsOk : Bool) (origCheckCommands : List String)
    (m : List TaskJson) (taskId : Option String) : Option (List TaskJson) :=
  if origCheckCommands.isEmpty then none
  else if cmdsOk then some (setTaskPasses m taskId) else none

/-- Result of the per-task retry loop: whether the task ended up
passing, the manifest afterwards, and the total attempt counter. -/
structure AttemptRes where
  passed : Bool
  manifest : List TaskJson
  attemptsUsed : Nat
deriving DecidableEq

/-- The `for ((retry=1; retry<=MAX_RETRIES; retry++))` loop of
`run_task_loop` for one selected task.  `worker k m` is the story
manifest after the k-th worker attempt of the run mutates the workspace
(an attempt that achieves nothing is `worker k m = m`); `cmdsOkAt k`
says whether the auto-verify commands all pass after attempt `k`.
After each attempt the manifest is re-extracted: the task counts as
passed when the extractor reports done or a different task id;
otherwise auto-verification is tried; otherwise (failure learnings are
collected, which does not affect control flow and) the next retry
runs. -/
def attemptLoop (worker : Nat → List TaskJson → List TaskJson) (cmdsOkAt : Nat → Bool)
    (taskId : Option String) (origCmds : List String) :
    Nat → List TaskJson → Nat → AttemptRes
  | 0, m, used => ⟨false, m, used⟩
  | Nat.succ r, m, used =>
    let m2 := worker (used + 1) m
    match extractTask m2 with
    | ExtractOut.done _ => ⟨true, m2, used + 1⟩
    | ExtractOut.next tid2 _ _ _ _ _ _ =>
      if tid2 ≠ taskId then ⟨true, m2, used + 1⟩
      else
        match autoVerifyTask (cmdsOkAt (used + 1)) origCmds m2 taskId with
        | some m3 => ⟨true, m3, used + 1⟩
        | none => attemptLoop worker cmdsOkAt taskId origCmds r m2 (used + 1)

/-- How `run_task_loop` ended. -/
inductive TaskLoopRes where
  | success (totalTasks : Nat)
  | extractError
  | stuck (taskId : Option String)
  | taskFailed (taskId : Option String)
  | outOfFuel
deriving DecidableEq

/-- Hard-coded `MAX_TOTAL_FAILURES` of `run_task_loop`. -/
def maxTotalFailures : Nat := 5

/-- The outer `while true` task loop of `run_task_loop`.  State:
current manifest, `LAST_FAILED_TASK_ID` (initially the empty string,
modelled as `none`), the attempt counter and `TASK_FAILURES`.  Each
round extracts the next task; on the done signal it returns success; on
a repeat of the last failed task id it aborts (stuck loop); otherwise
it runs the retry loop and either advances to the next task or — when
the retries exhaust — increments `TASK_FAILURES` and returns failure
(the `MAX_TOTAL_FAILURES` comparison only prints a message; every
failed task ends the loop).  Returns the result, the attempt counter
and the final `TASK_FAILURES`. -/
def taskLoop (maxRetries : Nat) (worker : Nat → List TaskJson → List TaskJson)
    (cmdsOkAt : Nat → Bool) :
    Nat → List TaskJson → Option (Option String) → Nat → Nat →
    TaskLoopRes × Nat × Nat
  | 0, _, _, attempts, failures => (TaskLoopRes.outOfFuel, attempts, failures)
  | Nat.succ fuel, m, lastFailed, attempts, failures =>
    match extractTask m with
    | ExtractOut.done total => (TaskLoopRes.success total, attempts, failures)
    | ExtractOut.next tid _ _ _ cc _ _ =>
      if lastFailed == some tid then (TaskLoopRes.stuck tid, attempts, failures)
      else
        let res := attemptLoop worker cmdsOkAt tid cc maxRetries m attempts
        if res.passed then
          taskLoop maxRetries worker cmdsOkAt fuel res.manifest lastFailed
            res.attemptsUsed failures
        else (TaskLoopRes.taskFailed tid, res.attemptsUsed, failures + 1)

/-- Model of `run_task_loop` from the first extractor invocation: when
the story file's manifest section is missing or unparsable the
extractor exits nonzero and the loop returns 1 immediately (no retry of
the extraction, no worker attempt); otherwise the task loop runs. -/
def runTaskLoop (maxRetries : Nat) (worker : Nat → List TaskJson → List TaskJson)
    (cmdsOkAt : Nat → Bool) (fuel : Nat) : ManifestParse → TaskLoopRes × Nat × Nat
  | ManifestParse.noBlock => (TaskLoopRes.extractError, 0, 0)
  | ManifestParse.badJson => (TaskLoopRes.extractError, 0, 0)
  | ManifestParse.ok m => taskLoop maxRetries worker cmdsOkAt fuel m none 0 0

/-- Oracles for `check_epic_complete`: the feature flag and the
outcomes of the external build/test/validation commands. -/
structure EpicCheckEnv where
  skipValidation : Bool
  buildOk : Bool
  testOk : Bool
  scriptPresent : Bool
  scriptOk : Bool
deriving DecidableEq

/-- Observable effect of `check_epic_complete` on the ledger (the
function itself always returns 0). -/
inductive EpicAction where
  | noAction
  | markReview
  | markDone
deriving DecidableEq

/-- The `epic_num` extraction of `check_epic_complete`:
`echo "$STORY_KEY" | grep -oE '^\d+'`.  POSIX ERE has no `\d` character
class — GNU grep (and BSD grep) treat the escape as the literal
character `d`, so the pattern is `^d+` and the command prints the
leading run of `d` characters, or nothing (exit 1, swallowed by the
`local` assignment) when the key does not start with `d`.  In
particular it is empty for every digit-leading story key. -/
def grepEpicNum (storyKey : String) : List Char :=
  storyKey.data.takeWhile (fun c => c == 'd')

/-- Model of `check_epic_complete` as shipped: skip when validation is
disabled or the extracted `epic_num` is empty; no-op unless every story
of the epic is done; no-op when the epic is already done; otherwise run
build, tests, and the optional epic validation script, marking the epic
`review` on the first failure and `done` when everything passes.  Note
the `epic_num` extraction is `grepEpicNum`, which is empty on every
story key, so the guard `[ -z "$epic_num" ]` always fires in practice
(see the dead-code theorem). -/
def checkEpicComplete (env : EpicCheckEnv) (entries : List LedgerEntry)
    (storyKey : String) : EpicAction :=
  if env.skipValidation then EpicAction.noAction
  else
    let ds := grepEpicNum storyKey
    if ds.isEmpty then EpicAction.noAction
    else
      let res := epicStories (String.mk ds) entries
      if !res.allDone then EpicAction.noAction
      else if res.epicStatus == "done" then EpicAction.noAction
      else if !env.buildOk then EpicAction.markReview
      else if !env.testOk then EpicAction.markReview
      else if env.scriptPresent && !env.scriptOk then EpicAction.markReview
      else EpicAction.markDone

/-- The behaviour `check_epic_complete` documents and §4.7 of the spec
describes: identical to `checkEpicComplete` except that the epic number
is extracted as the key's leading digit block — what `grep -oE '^\d+'`
was evidently intended to produce.  Kept as a separate, clearly named
definition to state which properties the intended phase satisfies and
where the shipped code diverges from it. -/
def checkEpicCompleteIntended (env : EpicCheckEnv) (entries : List LedgerEntry)
    (storyKey : String) : EpicAction :=
  if env.skipValidation then EpicAction.noAction
  else
    let ds := storyKey.data.takeWhile Char.isDigit
    if ds.isEmpty then EpicAction.noAction
    else
      let res := epicStories (String.mk ds) entries
      if !res.allDone then EpicAction.noAction
      else if res.epicStatus == "done" then EpicAction.noAction
      else if !env.buildOk then EpicAction.markReview
      else if !env.testOk then EpicAction.markReview
      else if env.scriptPresent && !env.scriptOk then EpicAction.markReview
      else EpicAction.markDone

/-- Presence of the three collaborator artifacts `ralph-bmad.sh`
requires at startup (`ralph.sh`, the task extractor, the sprint-status
tool); any absence makes the script `exit 1` before the pipeline
starts. -/
structure Artifacts where
  ralphSh : Bool
  taskExtractor : Bool
  sprintStatusTool : Bool
deriving DecidableEq

/-- Phase 0 outcome for one outer iteration. -/
inductive DiscoverOut where
  | allDone
  | needsCS
  | found (storyFileFound : Bool)
deriving DecidableEq

/-- Oracle describing one outer-loop iteration of the main pipeline:
whether a `check_wall_clock` fires during it, the discovery outcome,
whether `trigger_create_story` succeeds, whether the story was in
`ready-for-dev`, the outcomes of the task loop, story validation and CR
gate, whether the CR gate marked the story done, and the epic-check
action. -/
structure IterEnv where
  wallClockFired : Bool
  discover : DiscoverOut
  csOk : Bool
  readyForDev : Bool
  taskLoopOk : Bool
  validationOk : Bool
  crOk : Bool
  crMarkedDone : Bool
  epicAction : EpicAction
deriving DecidableEq

/-- Observable pipeline events: ledger/story status transitions, the
epic check, completion of a story, a discovery round, a wall-clock
abort, and exhaustion of the model's fuel. -/
inductive PipeEvent where
  | statusUpdate (fromSt toSt : String)
  | epicChecked (a : EpicAction)
  | storyCompleted
  | discovery (iter : Nat)
  | wallClockStop
  | fuelOut
deriving DecidableEq

/-- The outer chaining loop of `ralph-bmad.sh` (phases 0–6), returning
the process exit code and the event trace.  Faithful control flow: a
firing wall-clock check exits 1; every `break` path falls through to
the final summary and `exit 0` — including the paths that mark the
story `review` after a task-loop, validation, or CR failure; in chain
mode a completed story loops back to discovery. -/
def chainLoop (chainMode : Bool) (env : Nat → IterEnv) :
    Nat → Nat → Nat × List PipeEvent
  | 0, _ => (0, [PipeEvent.fuelOut])
  | Nat.succ fuel, i =>
    let e := env i
    if e.wallClockFired then (1, [PipeEvent.wallClockStop])
    else
      match e.discover with
      | DiscoverOut.allDone => (0, [PipeEvent.discovery i])
      | DiscoverOut.needsCS =>
        if e.csOk then
          let rest := chainLoop chainMode env fuel (i + 1)
          (rest.1, PipeEvent.discovery i :: rest.2)
        else (0, [PipeEvent.discovery i])
      | DiscoverOut.found fileFound =>
        if !fileFound then (0, [PipeEvent.discovery i])
        else
          let ev0 :=
            PipeEvent.discovery i ::
              (if e.readyForDev then [PipeEvent.statusUpdate "ready-for-dev" "in-progress"]
               else [])
          if !e.taskLoopOk then
            (0, ev0 ++ [PipeEvent.statusUpdate "in-progress" "review"])
          else if !e.validationOk then
            (0, ev0 ++ [PipeEvent.statusUpdate "in-progress" "review"])
          else if !e.crOk then
            (0, ev0 ++ [PipeEvent.statusUpdate "in-progress" "review"])
          else
            let ev1 := ev0 ++
              (if e.crMarkedDone then [PipeEvent.statusUpdate "in-progress" "done"]
               else []) ++
              [PipeEvent.epicChecked e.epicAction, PipeEvent.storyCompleted]
            if !chainMode then (0, ev1)
            else
              let rest := chainLoop chainMode env fuel (i + 1)
              (rest.1, ev1 ++ rest.2)

/-- The whole `ralph-bmad.sh` process: the startup artifact checks
(`exit 1` when an artifact is missing), then the chaining loop. -/
def ralphBmad (arts : Artifacts) (chainMode : Bool) (env : Nat → IterEnv)
    (fuel : Nat) : Nat × List PipeEvent :=
  if arts.ralphSh && arts.taskExtractor && arts.sprintStatusTool then
    chainLoop chainMode env fuel 0
  else (1, [])

/-- Replace the epic-check outcome of every iteration oracle (used to
state that the pipeline's control flow never depends on it). -/
def setEpicAction (env : Nat → IterEnv) (a : EpicAction) : Nat → IterEnv :=
  fun i =>
    let e := env i
    ⟨e.wallClockFired, e.discover, e.csOk, e.readyForDev, e.taskLoopOk,
     e.validationOk, e.crOk, e.crMarkedDone, a⟩

/-- A concrete run in which the story's task loop fails on the first
discovered story. -/
def escalatingEnv : Nat → IterEnv :=
  fun _ => ⟨false, DiscoverOut.found true, true, true, false, true, true, false,
    EpicAction.noAction⟩

/-- A concrete run in which the wall clock fires immediately. -/
def wallClockEnv : Nat → IterEnv :=
  fun _ => ⟨true, DiscoverOut.allDone, true, false, true, true, true, false,
    EpicAction.noAction⟩

/-- A digit string in canonical decimal form: nonempty, all digits, and
without a superfluous leading zero (story keys generated by the
pipeline are of this shape). -/
def canonicalDigits (ds : List Char) : Bool :=
  !ds.isEmpty && ds.all Char.isDigit && (ds == ['0'] || !(ds.head? == some '0'))

/-- The leading digit block of a story key — the epic number that
`check_epic_complete` intends to extract from `$STORY_KEY` (and that
`grepEpicNum`, the shipped extraction, fails to produce). -/
def epicDigits (storyKey : String) : List Char :=
  storyKey.data.takeWhile Char.isDigit

/-- A concrete ledger in which both stories of epic 1 are done and the
epic entry itself still reads `backlog`. -/
def epicLedger : List LedgerEntry :=
  [⟨"1-1-api", "done"⟩, ⟨"1-2-ui", "done"⟩, ⟨"epic-1", "backlog"⟩]

end Ralph

namespace Ralph

/-! ## Theorems: C1 and the extractor part of C6 need a `find?`
decomposition lemma, stated here as a reusable helper. -/

/-- Helper: a successful `find?` splits the list into a prefix on which
the predicate is false, the found element, and a tail. -/
theorem find?_decomp {α : Type} (p : α → Bool) :
    ∀ (l : List α) (a : α), l.find? p = some a →
      ∃ l1 l2, l = l1 ++ a :: l2 ∧ p a = true ∧ ∀ u ∈ l1, p u = false := by
  intro l
  induction l with
  | nil => intro a h; simp [List.find?] at h
  | cons x xs ih =>
    intro a h
    by_cases hx : p x = true
    · rw [List.find?_cons_of_pos _ hx] at h
      cases h
      exact ⟨[], xs, by simp, hx, by simp⟩
    · have hx' : p x = false := by
        cases hpx : p x
        · rfl
        · exact absurd hpx hx
      rw [List.find?_cons_of_neg _ hx] at h
      obtain ⟨l1, l2, hsplit, hpa, hall⟩ := ih a h
      refine ⟨x :: l1, l2, by simp [hsplit], hpa, ?_⟩
      intro u hu
      rcases List.mem_cons.mp hu with h1 | h2
      · exact h1 ▸ hx'
      · exact hall u h2

/-- C1: on a task list in which every task carries a boolean `passes`
field, the extractor returns the done signal exactly when every task's
`passes` is true; otherwise it returns the first task in list order
whose `passes` is false — so every task before the selected one has
`passes = true` — together with the count of passing tasks and the
total task count. -/
theorem extractTask_first_failing_spec (tasks : List TaskJson)
    (hwf : ∀ t ∈ tasks, (t.passes).isSome = true) :
    ((∃ n, extractTask tasks = ExtractOut.done n) ↔ ∀ t ∈ tasks, t.passes = some true) ∧
    (∀ tid ttl st ac cc comp tot,
      extractTask tasks = ExtractOut.next tid ttl st ac cc comp tot →
      comp = (tasks.filter (fun u => u.passes == some true)).length ∧
      tot = tasks.length ∧
      ∃ l1 t l2, tasks = l1 ++ t :: l2 ∧ t.passes = some false ∧
        tid = t.id ∧ ttl = t.title ∧ st = t.steps.getD [] ∧
        ac = t.acceptanceCriteria.getD [] ∧ cc = t.checkCommands.getD [] ∧
        ∀ u ∈ l1, u.passes = some true) := by
  unfold extractTask
  cases hfind : tasks.find? (fun t => t.passes == some false) with
  | none =>
    have hnone := List.find?_eq_none.mp hfind
    constructor
    · constructor
      · intro _ t ht
        have h1 : ¬ (t.passes == some false) = true := hnone t ht
        obtain ⟨b, hb⟩ := Option.isSome_iff_exists.mp (hwf t ht)
        cases b
        · exact absurd (by simp [hb]) h1
        · exact hb
      · intro _
        exact ⟨tasks.length, rfl⟩
    · intro tid ttl st ac cc comp tot h
      exact absurd h (by simp)
  | some t =>
    have hmem : t ∈ tasks := List.mem_of_find?_eq_some hfind
    obtain ⟨l1, l2, hsplit, hpt, hall⟩ := find?_decomp _ tasks t hfind
    have hptf : t.passes = some false := by
      simpa using hpt
    constructor
    · constructor
      · intro h
        obtain ⟨n, hn⟩ := h
        exact absurd hn (by simp)
      · intro hall
        have := hall t hmem
        rw [this] at hptf
        exact absurd (Option.some.inj hptf) (by simp)
    · intro tid ttl st ac cc comp tot h
      obtain ⟨h1, h2, h3, h4, h5, h6, h7⟩ :
          tid = t.id ∧ ttl = t.title ∧ st = t.steps.getD [] ∧
          ac = t.acceptanceCriteria.getD [] ∧ cc = t.checkCommands.getD [] ∧
          comp = (tasks.filter (fun u => u.passes == some true)).length ∧
          tot = tasks.length := by
        cases h
        exact ⟨rfl, rfl, rfl, rfl, rfl, rfl, rfl⟩
      refine ⟨h6, h7, ?_⟩
      refine ⟨l1, t, l2, hsplit, hptf, h1, h2, h3, h4, h5, ?_⟩
      intro u hu
      have humem : u ∈ tasks := by
        rw [hsplit]
        exact List.mem_append_left _ hu
      have h1 : ¬ (u.passes == some false) = true := by
        rw [hall u hu]
        simp
      obtain ⟨b, hb⟩ := Option.isSome_iff_exists.mp (hwf u humem)
      cases b
      · exact absurd (by simp [hb]) h1
      · exact hb

/-- Witness for C1 at a concrete manifest: `sampleTasks` is well formed,
is not reported done, and the extractor output matches the theorem's
description (first failing task is `task-2`, one of two tasks passing). -/
theorem extractTask_first_failing_spec_witness :
    ¬ (∃ n, extractTask sampleTasks = ExtractOut.done n) ∧
    extractTask sampleTasks =
      ExtractOut.next (some "task-2") (some "Wire endpoint") ["step b"] ["AC2"]
        ["npm run lint"] 1 2 := by
  have h := extractTask_first_failing_spec sampleTasks (by decide)
  constructor
  · rw [h.1]
    decide
  · decide

/-- C6 counterexample: a manifest whose single task is missing its
required fields (no `title`, no `passes`, …) does **not** make the
extractor fail: the JS `tasks.find((t) => t.passes === false)` finds no
task, so the extractor prints `{done: true}` and exits 0 — contradicting
the claim that a missing required task field yields a nonzero exit. -/
theorem ralphExtractTask_missing_field_no_error :
    ralphExtractTask (ManifestParse.ok missingFieldTasks) =
      Except.ok (ExtractOut.done 1) := by
  rfl

/-- Helper: the watchdog body reports a timeout exactly when the elapsed
time has reached the iteration timeout. -/
theorem pollStep_timedOut_iff (cfg : SupervisorCfg) (iterStart : Nat)
    (s : WatchState) (p : Poll) :
    pollStep cfg iterStart s p = PollStep.timedOut ↔
      p.now - iterStart ≥ cfg.iterationTimeout := by
  unfold pollStep
  by_cases h : p.now - iterStart ≥ cfg.iterationTimeout
  · simp [h]
  · simp only [if_neg h]
    constructor
    · intro hcon
      split at hcon
      · exact absurd hcon (by simp)
      · exact absurd hcon (by simp)
    · intro hcon
      exact absurd hcon h

/-- Helper: the watchdog body reports a stall exactly when the iteration
timeout has not fired, the 60s grace period is exceeded, and the
`SINCE_CHANGE` value computed at the top of the loop body has reached
the stall timeout. -/
theorem pollStep_stalled_iff (cfg : SupervisorCfg) (iterStart : Nat)
    (s : WatchState) (p : Poll) :
    pollStep cfg iterStart s p = PollStep.stalled ↔
      (p.now - iterStart < cfg.iterationTimeout ∧
       p.now - iterStart > stallGracePeriod ∧
       p.now - s.lastChangeTime ≥ cfg.stallTimeout) := by
  unfold pollStep
  by_cases h : p.now - iterStart ≥ cfg.iterationTimeout
  · simp [h]
  · simp only [if_neg h]
    by_cases h2 : p.now - iterStart > stallGracePeriod ∧
        p.now - s.lastChangeTime ≥ cfg.stallTimeout
    · simp [h2]
      omega
    · simp [h2]

/-- Helper: a watchdog run that ended in `timedOut` saw a poll whose
elapsed time reached the iteration timeout. -/
theorem watchdog_timedOut_mem (cfg : SupervisorCfg) (iterStart : Nat) :
    ∀ (polls : List Poll) (s : WatchState),
      watchdog cfg iterStart s polls = WatchOutcome.timedOut →
      ∃ p ∈ polls, p.now - iterStart ≥ cfg.iterationTimeout := by
  intro polls
  induction polls with
  | nil => intro s h; simp [watchdog] at h
  | cons p ps ih =>
    intro s h
    unfold watchdog at h
    cases hstep : pollStep cfg iterStart s p with
    | timedOut =>
      exact ⟨p, List.mem_cons_self p ps, (pollStep_timedOut_iff cfg iterStart s p).mp hstep⟩
    | stalled => rw [hstep] at h; exact absurd h (by simp)
    | keepPolling s2 =>
      rw [hstep] at h
      obtain ⟨q, hq, hbound⟩ := ih s2 h
      exact ⟨q, List.mem_cons_of_mem p hq, hbound⟩

/-- Helper: a watchdog run that ended in `stalled` saw a poll past the
grace period but before the iteration timeout. -/
theorem watchdog_stalled_mem (cfg : SupervisorCfg) (iterStart : Nat) :
    ∀ (polls : List Poll) (s : WatchState),
      watchdog cfg iterStart s polls = WatchOutcome.stalled →
      ∃ p ∈ polls, p.now - iterStart > stallGracePeriod ∧
        p.now - iterStart < cfg.iterationTimeout := by
  intro polls
  induction polls with
  | nil => intro s h; simp [watchdog] at h
  | cons p ps ih =>
    intro s h
    unfold watchdog at h
    cases hstep : pollStep cfg iterStart s p with
    | timedOut => rw [hstep] at h; exact absurd h (by simp)
    | stalled =>
      obtain ⟨h1, h2, _⟩ := (pollStep_stalled_iff cfg iterStart s p).mp hstep
      exact ⟨p, List.mem_cons_self p ps, h2, h1⟩
    | keepPolling s2 =>
      rw [hstep] at h
      obtain ⟨q, hq, hbound⟩ := ih s2 h
      exact ⟨q, List.mem_cons_of_mem p hq, hbound⟩

/-- C2: classification of one supervised worker attempt.  The worker is
killed and the attempt classified `timeout` exactly when a poll (taken
while it still runs) sees elapsed ≥ `T_iter`; killed and classified
`stalled` exactly when no timeout fired, elapsed exceeds the 60s grace
period and the time since the last recorded fingerprint change reaches
`T_stall`; a naturally terminating worker is classified `passed` exactly
when its captured output contains `<promise>COMPLETE</promise>` and
`failed` otherwise; and the defaults are `T_iter = 480`, `T_stall = 180`
with a 60s grace period. -/
theorem supervisor_attempt_classification :
    (∀ cfg iterStart s p, pollStep cfg iterStart s p = PollStep.timedOut ↔
        p.now - iterStart ≥ cfg.iterationTimeout) ∧
    (∀ cfg iterStart s p, pollStep cfg iterStart s p = PollStep.stalled ↔
        (p.now - iterStart < cfg.iterationTimeout ∧
         p.now - iterStart > stallGracePeriod ∧
         p.now - s.lastChangeTime ≥ cfg.stallTimeout)) ∧
    (∀ out, classifyAttempt WatchOutcome.timedOut out = AttemptOutcome.timeout) ∧
    (∀ out, classifyAttempt WatchOutcome.stalled out = AttemptOutcome.stalled) ∧
    (∀ out, classifyAttempt WatchOutcome.finished out = AttemptOutcome.passed ↔
        strHasSub out completionMarker = true) ∧
    (∀ out, classifyAttempt WatchOutcome.finished out = AttemptOutcome.failed ↔
        ¬ strHasSub out completionMarker = true) ∧
    (∀ cfg iterStart s polls, watchdog cfg iterStart s polls = WatchOutcome.timedOut →
        ∃ p ∈ polls, p.now - iterStart ≥ cfg.iterationTimeout) ∧
    (∀ cfg iterStart s polls, watchdog cfg iterStart s polls = WatchOutcome.stalled →
        ∃ p ∈ polls, p.now - iterStart > stallGracePeriod ∧
          p.now - iterStart < cfg.iterationTimeout) ∧
    defaultIterationTimeout = 480 ∧ defaultStallTimeout = 180 ∧ stallGracePeriod = 60 := by
  refine ⟨pollStep_timedOut_iff, pollStep_stalled_iff, ?_, ?_, ?_, ?_, ?_, ?_, rfl, rfl, rfl⟩
  · intro out; rfl
  · intro out; rfl
  · intro out
    unfold classifyAttempt
    by_cases h : strHasSub out completionMarker = true
    · simp [h]
    · simp [h]
  · intro out
    unfold classifyAttempt
    by_cases h : strHasSub out completionMarker = true
    · simp [h]
    · simp [h]
  · intro cfg iterStart s polls
    exact watchdog_timedOut_mem cfg iterStart polls s
  · intro cfg iterStart s polls
    exact watchdog_stalled_mem cfg iterStart polls s

/-- Helper: if the CR loop ends while `CR_RESULT` is still `CR-FIXED`,
the iteration budget is exhausted (the final count is `maxIter`). -/
theorem crLoop_fixed_exhausts (signals : Nat → CRSignalText) (maxIter : Nat) :
    ∀ (iter : Nat) (res : CRResult), iter ≤ maxIter →
      (crLoop signals maxIter iter res).2 = CRResult.fixed →
      (crLoop signals maxIter iter res).1 = maxIter := by
  suffices h : ∀ (k iter : Nat) (res : CRResult), maxIter - iter ≤ k → iter ≤ maxIter →
      (crLoop signals maxIter iter res).2 = CRResult.fixed →
      (crLoop signals maxIter iter res).1 = maxIter by
    intro iter res hle hfix
    exact h (maxIter - iter) iter res le_rfl hle hfix
  intro k
  induction k with
  | zero =>
    intro iter res hk hle hfix
    have hit : iter = maxIter := by omega
    rw [crLoop] at hfix ⊢
    have hcond : ¬ (res = CRResult.fixed ∧ iter < maxIter) := by
      intro hc
      omega
    rw [if_neg hcond] at hfix ⊢
    exact hit
  | succ k ih =>
    intro iter res hk hle hfix
    by_cases hcond : res = CRResult.fixed ∧ iter < maxIter
    · rw [crLoop] at hfix ⊢
      rw [if_pos hcond] at hfix ⊢
      exact ih (iter + 1) _ (by omega) (by omega) hfix
    · rw [crLoop] at hfix ⊢
      rw [if_neg hcond] at hfix ⊢
      simp at hfix ⊢
      rcases Decidable.not_and_iff_or_not.mp hcond with h1 | h2
      · exact absurd hfix h1
      · omega

/-- Helper: the CR loop either returns its input state unchanged
(because the loop guard failed) or the final result is the
interpretation of the signal emitted at the final iteration, which is
strictly later than the starting iteration. -/
theorem crLoop_result_signal (signals : Nat → CRSignalText) (maxIter : Nat) :
    ∀ (iter : Nat) (res : CRResult),
      (crLoop signals maxIter iter res = (iter, res) ∧
        ¬ (res = CRResult.fixed ∧ iter < maxIter)) ∨
      (iter < (crLoop signals maxIter iter res).1 ∧
        (crLoop signals maxIter iter res).2 =
          interpretCRSignal (signals (crLoop signals maxIter iter res).1)) := by
  suffices h : ∀ (k iter : Nat) (res : CRResult), maxIter - iter ≤ k →
      (crLoop signals maxIter iter res = (iter, res) ∧
        ¬ (res = CRResult.fixed ∧ iter < maxIter)) ∨
      (iter < (crLoop signals maxIter iter res).1 ∧
        (crLoop signals maxIter iter res).2 =
          interpretCRSignal (signals (crLoop signals maxIter iter res).1)) by
    intro iter res
    exact h (maxIter - iter) iter res le_rfl
  intro k
  induction k with
  | zero =>
    intro iter res hk
    have hcond : ¬ (res = CRResult.fixed ∧ iter < maxIter) := by
      intro hc
      omega
    left
    rw [crLoop, if_neg hcond]
    exact ⟨rfl, hcond⟩
  | succ k ih =>
    intro iter res hk
    by_cases hcond : res = CRResult.fixed ∧ iter < maxIter
    · right
      rw [crLoop, if_pos hcond]
      rcases ih (iter + 1) (interpretCRSignal (signals (iter + 1))) (by omega) with
        ⟨heq, _⟩ | ⟨hlt, hsig⟩
      · rw [heq]
        exact ⟨by omega, rfl⟩
      · exact ⟨by omega, hsig⟩
    · left
      rw [crLoop, if_neg hcond]
      exact ⟨rfl, hcond⟩

/-- C3: the Review Gate never marks the story done off a `fixed`
signal.  Whenever `run_cr_gate` finishes, the `done` transition is
performed exactly when the final result is `CR-PASS` (and then the
final iteration's signal really was a pass); while the state is `fixed`
and the budget is not exhausted another iteration runs; and if the loop
ends still `fixed` the budget was exhausted and the story transitions
to `review` with a failing return code.  The default iteration budget
is 3. -/
theorem cr_gate_fixed_never_done :
    (∀ (tf : Bool) (signals : Nat → CRSignalText) (maxIter n : Nat) (r : CRResult)
        (upd : String × String) (ok : Bool),
      runCrGate tf signals maxIter = CRGateOut.finished n r upd ok →
      ((upd = ("in-progress", "done")) ↔ r = CRResult.pass) ∧
      ((ok = true) ↔ r = CRResult.pass) ∧
      (r = CRResult.fixed → n = maxIter ∧ upd = ("in-progress", "review") ∧ ok = false) ∧
      (r = CRResult.pass → 1 ≤ n ∧ interpretCRSignal (signals n) = CRResult.pass)) ∧
    (∀ (signals : Nat → CRSignalText) (maxIter i : Nat), i < maxIter →
      crLoop signals maxIter i CRResult.fixed =
        crLoop signals maxIter (i + 1) (interpretCRSignal (signals (i + 1)))) ∧
    defaultMaxCRIterations = 3 := by
  refine ⟨?_, ?_, rfl⟩
  · intro tf signals maxIter n r upd ok h
    unfold runCrGate at h
    cases tf with
    | false => simp at h
    | true =>
      simp only [if_true] at h
      by_cases hp : (crLoop signals maxIter 0 CRResult.fixed).2 = CRResult.pass
      · rw [if_pos hp] at h
        obtain ⟨hn, hr, hupd, hok⟩ : n = (crLoop signals maxIter 0 CRResult.fixed).1 ∧
            r = (crLoop signals maxIter 0 CRResult.fixed).2 ∧
            upd = ("in-progress", "done") ∧ ok = true := by
          cases h
          exact ⟨rfl, rfl, rfl, rfl⟩
        subst hn hupd hok
        have hrp : r = CRResult.pass := hr.symm ▸ hp
        refine ⟨by simp [hrp], by simp [hrp], by simp [hrp], ?_⟩
        intro _
        rcases crLoop_result_signal signals maxIter 0 CRResult.fixed with
          ⟨heq, _⟩ | ⟨hlt, hsig⟩
        · rw [heq] at hp
          simp at hp
        · refine ⟨by omega, ?_⟩
          rw [← hsig]
          exact hp
      · rw [if_neg hp] at h
        obtain ⟨hn, hr, hupd, hok⟩ : n = (crLoop signals maxIter 0 CRResult.fixed).1 ∧
            r = (crLoop signals maxIter 0 CRResult.fixed).2 ∧
            upd = ("in-progress", "review") ∧ ok = false := by
          cases h
          exact ⟨rfl, rfl, rfl, rfl⟩
        subst hn hupd hok
        have hrnp : ¬ r = CRResult.pass := by
          rw [hr]
          exact hp
        refine ⟨by simp [hrnp], by simp [hrnp], ?_, fun hrp => absurd hrp hrnp⟩
        intro hrfix
        refine ⟨?_, rfl, rfl⟩
        exact crLoop_fixed_exhausts signals maxIter 0 CRResult.fixed (Nat.zero_le _)
          (hr ▸ hrfix)
  · intro signals maxIter i hlt
    rw [crLoop, if_pos ⟨rfl, hlt⟩]

/-- Witness for C3: with signals fixed, fixed, fixed and budget 3 the
gate exhausts at iteration 3 and marks review, and by the theorem the
review transition it performed is not the done transition. -/
theorem cr_gate_fixed_never_done_witness :
    runCrGate true (fun _ => CRSignalText.fixedSig) 3 =
      CRGateOut.finished 3 CRResult.fixed ("in-progress", "review") false ∧
    runCrGate true (fun _ => CRSignalText.passSig) 3 =
      CRGateOut.finished 1 CRResult.pass ("in-progress", "done") true ∧
    ¬ (("in-progress", "review") = (("in-progress", "done") : String × String)) := by
  have h1 : crLoop (fun _ => CRSignalText.fixedSig) 3 0 CRResult.fixed =
      (3, CRResult.fixed) := by
    rw [crLoop, if_pos ⟨rfl, by omega⟩]
    rw [crLoop, if_pos ⟨rfl, by omega⟩]
    rw [crLoop, if_pos ⟨rfl, by omega⟩]
    rw [crLoop, if_neg (by simp [interpretCRSignal])]
    rfl
  have h2 : crLoop (fun _ => CRSignalText.passSig) 3 0 CRResult.fixed =
      (1, CRResult.pass) := by
    rw [crLoop, if_pos ⟨rfl, by omega⟩]
    rw [crLoop, if_neg (by simp [interpretCRSignal])]
    rfl
  have hrun1 : runCrGate true (fun _ => CRSignalText.fixedSig) 3 =
      CRGateOut.finished 3 CRResult.fixed ("in-progress", "review") false := by
    unfold runCrGate
    rw [if_pos rfl]
    simp only [h1]
    rfl
  have hrun2 : runCrGate true (fun _ => CRSignalText.passSig) 3 =
      CRGateOut.finished 1 CRResult.pass ("in-progress", "done") true := by
    unfold runCrGate
    rw [if_pos rfl]
    simp only [h2]
    rfl
  have hiff := (cr_gate_fixed_never_done.1 true (fun _ => CRSignalText.fixedSig) 3 3
    CRResult.fixed ("in-progress", "review") false hrun1).1
  refine ⟨hrun1, hrun2, ?_⟩
  intro hbad
  have hcon := hiff.mp hbad
  exact absurd hcon (by simp)

/-- Helper: against a worker that never changes the manifest and
failing auto-verify commands, every retry of the attempt loop fails and
the budget is consumed exactly. -/
theorem attemptLoop_always_failing (m : List TaskJson) (tid ttl : Option String)
    (st ac cc : List String) (comp tot : Nat)
    (hx : extractTask m = ExtractOut.next tid ttl st ac cc comp tot) :
    ∀ (r used : Nat),
      attemptLoop (fun _ x => x) (fun _ => false) tid cc r m used =
        ⟨false, m, used + r⟩ := by
  intro r
  induction r with
  | zero =>
    intro used
    simp [attemptLoop]
  | succ r ih =>
    intro used
    have hav : autoVerifyTask false cc m tid = none := by
      unfold autoVerifyTask
      by_cases hcc : cc.isEmpty
      · rw [if_pos hcc]
      · rw [if_neg hcc]
        simp
    unfold attemptLoop
    simp only [hx, ne_eq, not_true_eq_false, if_false, hav, ih (used + 1)]
    congr 1
    omega

/-- Helper: the task loop's failure counter grows by at most one over a
whole run (any task failure ends the loop immediately). -/
theorem taskLoop_failures_le (R : Nat) (worker : Nat → List TaskJson → List TaskJson)
    (cmdsOkAt : Nat → Bool) :
    ∀ (fuel : Nat) (m : List TaskJson) (lastFailed : Option (Option String))
      (att f : Nat),
      (taskLoop R worker cmdsOkAt fuel m lastFailed att f).2.2 ≤ f + 1 := by
  intro fuel
  induction fuel with
  | zero =>
    intro m lastFailed att f
    simp [taskLoop]
  | succ fuel ih =>
    intro m lastFailed att f
    rw [taskLoop]
    split
    · simp
    · split
      · simp
      · dsimp only
        split
        · exact ih _ _ _ _
        · simp

/-- Helper: a run of the task loop that ends in success never
incremented the failure counter. -/
theorem taskLoop_success_failures (R : Nat) (worker : Nat → List TaskJson → List TaskJson)
    (cmdsOkAt : Nat → Bool) :
    ∀ (fuel : Nat) (m : List TaskJson) (lastFailed : Option (Option String))
      (att f total att2 f2 : Nat),
      taskLoop R worker cmdsOkAt fuel m lastFailed att f =
        (TaskLoopRes.success total, att2, f2) → f2 = f := by
  intro fuel
  induction fuel with
  | zero =>
    intro m lastFailed att f total att2 f2 h
    simp [taskLoop] at h
  | succ fuel ih =>
    intro m lastFailed att f total att2 f2 h
    rw [taskLoop] at h
    split at h
    · cases h
      rfl
    · split at h
      · cases h
      · dsimp only at h
        split at h
        · exact ih _ _ _ _ _ _ _ h
        · cases h

/-- C4: against a worker whose attempts never change the manifest (for
example one that always times out) and failing auto-verification, the
task loop performs exactly `maxRetries` attempts on the first
incomplete task, increments the cross-task failure counter exactly
once, and stops with a task failure (which the outer pipeline turns
into the `in-progress → review` transition with the loop never
continuing to a later task).  In every run the failure counter stays
within `MAX_TOTAL_FAILURES = 5` (indeed within 1: the loop escalates on
the first failed task, a fortiori when the cap is reached), and a
successful run incurs no failures. -/
theorem task_loop_retry_budget :
    (∀ (R : Nat) (m : List TaskJson) (tid ttl : Option String)
        (st ac cc : List String) (comp tot fuel : Nat),
      extractTask m = ExtractOut.next tid ttl st ac cc comp tot →
      taskLoop R (fun _ x => x) (fun _ => false) (fuel + 1) m none 0 0 =
        (TaskLoopRes.taskFailed tid, R, 1)) ∧
    (∀ (R : Nat) (worker : Nat → List TaskJson → List TaskJson)
        (cmdsOkAt : Nat → Bool) (fuel : Nat) (m : List TaskJson)
        (lastFailed : Option (Option String)) (att f : Nat),
      (taskLoop R worker cmdsOkAt fuel m lastFailed att f).2.2 ≤ f + 1) ∧
    (∀ (R : Nat) (worker : Nat → List TaskJson → List TaskJson)
        (cmdsOkAt : Nat → Bool) (fuel : Nat) (m : List TaskJson),
      (taskLoop R worker cmdsOkAt fuel m none 0 0).2.2 ≤ maxTotalFailures) ∧
    (∀ (R : Nat) (worker : Nat → List TaskJson → List TaskJson)
        (cmdsOkAt : Nat → Bool) (fuel : Nat) (m : List TaskJson)
        (lastFailed : Option (Option String)) (att f total att2 f2 : Nat),
      taskLoop R worker cmdsOkAt fuel m lastFailed att f =
        (TaskLoopRes.success total, att2, f2) → f2 = f) ∧
    maxTotalFailures = 5 ∧
    (∀ (cm : Bool) (env : Nat → IterEnv) (fuel i : Nat),
      (env i).wallClockFired = false →
      (env i).discover = DiscoverOut.found true →
      (env i).taskLoopOk = false →
      (chainLoop cm env (fuel + 1) i).1 = 0 ∧
      PipeEvent.statusUpdate "in-progress" "review" ∈ (chainLoop cm env (fuel + 1) i).2) := by
  refine ⟨?_, taskLoop_failures_le, ?_, taskLoop_success_failures, rfl, ?_⟩
  · intro R m tid ttl st ac cc comp tot fuel hx
    rw [taskLoop]
    simp only [hx, attemptLoop_always_failing m tid ttl st ac cc comp tot hx R 0]
    simp
  · intro R worker cmdsOkAt fuel m
    have h := taskLoop_failures_le R worker cmdsOkAt fuel m none 0 0
    have : maxTotalFailures = 5 := rfl
    omega
  · intro cm env fuel i h1 h2 h3
    rw [chainLoop]
    simp only [h1, h2, h3, Bool.false_eq_true, if_false, Bool.not_true, Bool.not_false,
      if_true]
    constructor
    · trivial
    · by_cases hr : (env i).readyForDev = true
      · simp [hr]
      · simp only [Bool.not_eq_true] at hr
        simp [hr]

/-- Witness for C4 at a concrete manifest: with retry budget 3 and an
inert worker, the loop on `sampleTasks` makes exactly 3 attempts at
`task-2`, records exactly one failure, and fails. -/
theorem task_loop_retry_budget_witness :
    taskLoop 3 (fun _ x => x) (fun _ => false) 1 sampleTasks none 0 0 =
      (TaskLoopRes.taskFailed (some "task-2"), 3, 1) ∧ 1 ≤ maxTotalFailures := by
  have hx : extractTask sampleTasks =
      ExtractOut.next (some "task-2") (some "Wire endpoint") ["step b"] ["AC2"]
        ["npm run lint"] 1 2 := by decide
  exact ⟨task_loop_retry_budget.1 3 sampleTasks (some "task-2") (some "Wire endpoint")
    ["step b"] ["AC2"] ["npm run lint"] 1 2 0 hx, by decide⟩

/-- C6 (amended): the extractor fails (nonzero exit) exactly when the
Ralph Tasks JSON block is missing or cannot be parsed — a missing
required task field is not an error (see the counterexample) — and the
task loop treats an extractor failure as fatal: it stops at once with
zero worker attempts and zero retries of the extraction, after which
the pipeline marks the story `review` and the run ends. -/
theorem extractor_error_fatal_for_story :
    (∀ p : ManifestParse, (∃ e, ralphExtractTask p = Except.error e) ↔
      (p = ManifestParse.noBlock ∨ p = ManifestParse.badJson)) ∧
    (∀ (R : Nat) (worker : Nat → List TaskJson → List TaskJson)
        (cmdsOkAt : Nat → Bool) (fuel : Nat) (p : ManifestParse),
      (p = ManifestParse.noBlock ∨ p = ManifestParse.badJson) →
      runTaskLoop R worker cmdsOkAt fuel p = (TaskLoopRes.extractError, 0, 0)) ∧
    (∀ (cm : Bool) (env : Nat → IterEnv) (fuel i : Nat),
      (env i).wallClockFired = false →
      (env i).discover = DiscoverOut.found true →
      (env i).taskLoopOk = false →
      PipeEvent.statusUpdate "in-progress" "review" ∈ (chainLoop cm env (fuel + 1) i).2 ∧
      (∀ j, PipeEvent.discovery j ∈ (chainLoop cm env (fuel + 1) i).2 → j = i)) := by
  refine ⟨?_, ?_, ?_⟩
  · intro p
    cases p with
    | noBlock => exact ⟨fun _ => Or.inl rfl, fun _ => ⟨_, rfl⟩⟩
    | badJson => exact ⟨fun _ => Or.inr rfl, fun _ => ⟨_, rfl⟩⟩
    | ok ts =>
      constructor
      · intro h
        obtain ⟨e, he⟩ := h
        exact absurd he (by simp [ralphExtractTask])
      · intro h
        rcases h with h | h <;> cases h
  · intro R worker cmdsOkAt fuel p hp
    rcases hp with h | h <;> rw [h] <;> rfl
  · intro cm env fuel i h1 h2 h3
    rw [chainLoop]
    simp only [h1, h2, h3, Bool.false_eq_true, if_false, Bool.not_true, Bool.not_false,
      if_true]
    constructor
    · by_cases hr : (env i).readyForDev = true
      · simp [hr]
      · simp only [Bool.not_eq_true] at hr
        simp [hr]
    · intro j hj
      by_cases hr : (env i).readyForDev = true
      · simp [hr] at hj
        exact hj
      · simp only [Bool.not_eq_true] at hr
        simp [hr] at hj
        exact hj

/-- Witness for C6 at concrete inputs: an unparsable manifest makes the
extractor fail and the task loop stop with zero attempts. -/
theorem extractor_error_fatal_for_story_witness :
    (∃ e, ralphExtractTask ManifestParse.badJson = Except.error e) ∧
    runTaskLoop 3 (fun _ x => x) (fun _ => false) 5 ManifestParse.badJson =
      (TaskLoopRes.extractError, 0, 0) := by
  have h := extractor_error_fatal_for_story
  exact ⟨(h.1 ManifestParse.badJson).mpr (Or.inr rfl),
    h.2.1 3 (fun _ x => x) (fun _ => false) 5 ManifestParse.badJson (Or.inr rfl)⟩

/-- C8 counterexample: a run in which the current story is escalated to
`review` (task loop fails, `update_status in-progress review` is
performed) terminates through the `break`-and-summary path with exit
code 0, not nonzero: every failure `break` of the outer loop falls
through to the final `exit 0`. -/
theorem pipeline_review_escalation_exits_zero :
    ralphBmad ⟨true, true, true⟩ true escalatingEnv 3 =
      (0, [PipeEvent.discovery 0, PipeEvent.statusUpdate "ready-for-dev" "in-progress",
           PipeEvent.statusUpdate "in-progress" "review"]) ∧
    PipeEvent.statusUpdate "in-progress" "review" ∈
      (ralphBmad ⟨true, true, true⟩ true escalatingEnv 3).2 ∧
    (ralphBmad ⟨true, true, true⟩ true escalatingEnv 3).1 = 0 := by
  refine ⟨by decide, by decide, by decide⟩

/-- Helper: the only exit codes the chaining loop produces are 0 and 1. -/
theorem chainLoop_exit_code (cm : Bool) (env : Nat → IterEnv) :
    ∀ (fuel i : Nat), (chainLoop cm env fuel i).1 = 0 ∨ (chainLoop cm env fuel i).1 = 1 := by
  intro fuel
  induction fuel with
  | zero => intro i; left; rfl
  | succ fuel ih =>
    intro i
    rw [chainLoop]
    by_cases hw : (env i).wallClockFired = true
    · simp [hw]
    · simp only [Bool.not_eq_true] at hw
      simp only [hw, Bool.false_eq_true, if_false]
      cases hd : (env i).discover with
      | allDone => left; rfl
      | needsCS =>
        by_cases hcs : (env i).csOk = true
        · simpa [hcs] using ih (i + 1)
        · simp only [Bool.not_eq_true] at hcs
          simp [hcs]
      | found ff =>
        cases ff with
        | false => left; rfl
        | true =>
          dsimp only [Bool.not_true, Bool.not_false]
          by_cases ht : (env i).taskLoopOk = true
          · simp only [ht, Bool.not_true, Bool.false_eq_true, if_false]
            by_cases hv : (env i).validationOk = true
            · simp only [hv, Bool.not_true, Bool.false_eq_true, if_false]
              by_cases hc : (env i).crOk = true
              · simp only [hc, Bool.not_true, Bool.false_eq_true, if_false]
                cases cm with
                | false => left; rfl
                | true => simpa using ih (i + 1)
              · simp only [Bool.not_eq_true] at hc
                simp [hc]
            · simp only [Bool.not_eq_true] at hv
              simp [hv]
          · simp only [Bool.not_eq_true] at ht
            simp [ht]

/-- Helper: an exit code of 1 can only come from a wall-clock abort
(every other stop of the outer loop reaches the final `exit 0`). -/
theorem chainLoop_exit_one_wallClock (cm : Bool) (env : Nat → IterEnv) :
    ∀ (fuel i : Nat), (chainLoop cm env fuel i).1 = 1 →
      ∃ j, (env j).wallClockFired = true := by
  intro fuel
  induction fuel with
  | zero => intro i h; simp [chainLoop] at h
  | succ fuel ih =>
    intro i h
    rw [chainLoop] at h
    by_cases hw : (env i).wallClockFired = true
    · exact ⟨i, hw⟩
    · simp only [Bool.not_eq_true] at hw
      simp only [hw, Bool.false_eq_true, if_false] at h
      cases hd : (env i).discover with
      | allDone => rw [hd] at h; simp at h
      | needsCS =>
        rw [hd] at h
        by_cases hcs : (env i).csOk = true
        · simp only [hcs, if_true] at h
          exact ih (i + 1) (by simpa using h)
        · simp only [Bool.not_eq_true] at hcs
          simp [hcs] at h
      | found ff =>
        rw [hd] at h
        cases ff with
        | false => simp at h
        | true =>
          dsimp only [Bool.not_true, Bool.not_false] at h
          by_cases ht : (env i).taskLoopOk = true
          · simp only [ht, Bool.not_true, Bool.false_eq_true, if_false] at h
            by_cases hv : (env i).validationOk = true
            · simp only [hv, Bool.not_true, Bool.false_eq_true, if_false] at h
              by_cases hc : (env i).crOk = true
              · simp only [hc, Bool.not_true, Bool.false_eq_true, if_false] at h
                cases cm with
                | false => simp at h
                | true => exact ih (i + 1) (by simpa using h)
              · simp only [Bool.not_eq_true] at hc
                simp [hc] at h
            · simp only [Bool.not_eq_true] at hv
              simp [hv] at h
          · simp only [Bool.not_eq_true] at ht
            simp [ht] at h

/-- C8 (amended): the orchestrator exits nonzero exactly when a
required collaborator artifact is missing at startup or the wall-clock
budget fires; a clean stop — backlog exhausted, or the single explicit
story completed — exits 0, but so does every stop caused by a story
escalated to `review`: escalation does not produce a nonzero exit. -/
theorem pipeline_exit_code_policy :
    (∀ (arts : Artifacts) (cm : Bool) (env : Nat → IterEnv) (fuel : Nat),
      ¬ (arts.ralphSh = true ∧ arts.taskExtractor = true ∧ arts.sprintStatusTool = true) →
      ralphBmad arts cm env fuel = (1, [])) ∧
    (∀ (cm : Bool) (env : Nat → IterEnv) (fuel i : Nat),
      (chainLoop cm env fuel i).1 = 1 → ∃ j, (env j).wallClockFired = true) ∧
    (∀ (cm : Bool) (env : Nat → IterEnv) (fuel i : Nat),
      (env i).wallClockFired = true →
      chainLoop cm env (fuel + 1) i = (1, [PipeEvent.wallClockStop])) ∧
    (∀ (cm : Bool) (env : Nat → IterEnv) (fuel i : Nat),
      (env i).wallClockFired = false → (env i).discover = DiscoverOut.allDone →
      chainLoop cm env (fuel + 1) i = (0, [PipeEvent.discovery i])) ∧
    (∀ (env : Nat → IterEnv) (fuel i : Nat),
      (env i).wallClockFired = false → (env i).discover = DiscoverOut.found true →
      (env i).taskLoopOk = true → (env i).validationOk = true → (env i).crOk = true →
      (chainLoop false env (fuel + 1) i).1 = 0) ∧
    (∀ (cm : Bool) (env : Nat → IterEnv) (fuel i : Nat),
      (chainLoop cm env fuel i).1 = 0 ∨ (chainLoop cm env fuel i).1 = 1) := by
  refine ⟨?_, chainLoop_exit_one_wallClock, ?_, ?_, ?_, chainLoop_exit_code⟩
  · intro arts cm env fuel h
    unfold ralphBmad
    rw [if_neg (by simpa [Bool.and_eq_true] using h)]
  · intro cm env fuel i hw
    rw [chainLoop]
    simp [hw]
  · intro cm env fuel i hw hd
    rw [chainLoop]
    simp [hw, hd]
  · intro env fuel i hw hd ht hv hc
    rw [chainLoop]
    simp [hw, hd, ht, hv, hc]

/-- Witness for C8: a missing `ralph.sh` exits 1 before the pipeline,
an immediate wall-clock abort exits 1, an exhausted backlog exits 0. -/
theorem pipeline_exit_code_policy_witness :
    ralphBmad ⟨false, true, true⟩ true escalatingEnv 4 = (1, []) ∧
    chainLoop true wallClockEnv 1 0 = (1, [PipeEvent.wallClockStop]) ∧
    chainLoop true (fun _ => ⟨false, DiscoverOut.allDone, true, false, true, true, true,
      false, EpicAction.noAction⟩) 1 0 = (0, [PipeEvent.discovery 0]) := by
  have h := pipeline_exit_code_policy
  refine ⟨h.1 ⟨false, true, true⟩ true escalatingEnv 4 (by simp), ?_, ?_⟩
  · exact h.2.2.1 true wallClockEnv 0 0 (by decide)
  · exact h.2.2.2.1 true _ 0 0 (by decide) (by decide)

/-- Helper: the `updateStatus` line scan fails exactly when no line of
the ledger matches the key. -/
theorem updateLines_eq_none_iff (key newStatus : String) :
    ∀ lines : List String, updateLines key newStatus lines = none ↔
      ∀ l ∈ lines, lineMatchesKey key l = false := by
  intro lines
  induction lines with
  | nil => simp [updateLines]
  | cons l ls ih =>
    constructor
    · intro h u hu
      unfold updateLines at h
      by_cases hm : lineMatchesKey key l = true
      · rw [if_pos hm] at h
        cases h
      · simp only [Bool.not_eq_true] at hm
        rw [if_neg (by simp [hm])] at h
        rcases List.mem_cons.mp hu with h1 | h2
        · exact h1 ▸ hm
        · cases hrec : updateLines key newStatus ls with
          | some ls2 => rw [hrec] at h; cases h
          | none => exact (ih.mp hrec) u h2
    · intro h
      unfold updateLines
      have hl : lineMatchesKey key l = false := h l (by simp)
      rw [if_neg (by simp [hl])]
      rw [ih.mpr (fun u hu => h u (by simp [hu]))]

/-- C9: invoking `update-status` with a key that matches no ledger line
reports an error and exits nonzero, and the ledger file is never
written: its content after the call is exactly what it was before. -/
theorem update_status_missing_key (key newStatus : String) (lines : List String) :
    ((∃ e, updateStatus key newStatus lines = Except.error e) ↔
      ∀ l ∈ lines, lineMatchesKey key l = false) ∧
    (∀ e, updateStatus key newStatus lines = Except.error e →
      fileAfterUpdate key newStatus lines = lines) := by
  constructor
  · constructor
    · intro h
      obtain ⟨e, he⟩ := h
      unfold updateStatus at he
      cases hu : updateLines key newStatus lines with
      | some ls => rw [hu] at he; cases he
      | none => exact (updateLines_eq_none_iff key newStatus lines).mp hu
    · intro h
      refine ⟨"Key '" ++ key ++ "' not found in sprint-status.yaml", ?_⟩
      unfold updateStatus
      rw [(updateLines_eq_none_iff key newStatus lines).mpr h]
  · intro e he
    unfold updateStatus at he
    unfold fileAfterUpdate
    cases hu : updateLines key newStatus lines with
    | some ls => rw [hu] at he; cases he
    | none => rfl

/-- Witness for C9: a concrete two-line ledger without the key
`2-1-auth`: the update errors and the file is untouched. -/
theorem update_status_missing_key_witness :
    (∃ e, updateStatus "2-1-auth" "done" ["# sprint", "  1-1-api: done"] =
      Except.error e) ∧
    fileAfterUpdate "2-1-auth" "done" ["# sprint", "  1-1-api: done"] =
      ["# sprint", "  1-1-api: done"] := by
  have h := update_status_missing_key "2-1-auth" "done" ["# sprint", "  1-1-api: done"]
  have hnone : ∀ l ∈ ["# sprint", "  1-1-api: done"],
      lineMatchesKey "2-1-auth" l = false := by decide
  obtain ⟨e, he⟩ := h.1.mpr hnone
  exact ⟨⟨e, he⟩, h.2 e he⟩

/-- Helper: a story-pattern key starts with a digit. -/
theorem storyKeyNumbering_head_digit :
    ∀ cs : List Char, storyKeyNumbering cs = true →
      ∃ c cs2, cs = c :: cs2 ∧ c.isDigit = true := by
  intro cs h
  cases cs with
  | nil => simp [storyKeyNumbering] at h
  | cons c cs2 =>
    cases hc : c.isDigit with
    | true => exact ⟨c, cs2, rfl, hc⟩
    | false =>
      unfold storyKeyNumbering at h
      rw [List.takeWhile_cons_of_neg (by simp [hc])] at h
      simp at h

/-- Helper: whatever `nextStory` returns is a story key (it only ever
searches the `isStoryKey` filter of the ledger). -/
theorem nextStory_returns_storyKey (entries : List LedgerEntry) (info : NextStoryInfo) :
    nextStory entries = NextStoryOut.story info → isStoryKey info.storyKey = true := by
  intro h
  unfold nextStory at h
  dsimp only at h
  cases h1 : (entries.filter (fun e => isStoryKey e.key)).find?
      (fun s => s.status == "in-progress") with
  | some s =>
    rw [h1] at h
    cases h
    have hmem := List.mem_of_find?_eq_some h1
    simpa using List.of_mem_filter hmem
  | none =>
    rw [h1] at h
    cases h2 : (entries.filter (fun e => isStoryKey e.key)).find?
        (fun s => s.status == "ready-for-dev") with
    | some s =>
      rw [h2] at h
      cases h
      have hmem := List.mem_of_find?_eq_some h2
      simpa using List.of_mem_filter hmem
    | none =>
      rw [h2] at h
      cases h3 : (entries.filter (fun e => isStoryKey e.key)).find?
          (fun s => s.status == "backlog") with
      | some s =>
        rw [h3] at h
        cases h
        have hmem := List.mem_of_find?_eq_some h3
        simpa using List.of_mem_filter hmem
      | none =>
        rw [h3] at h
        cases h

/-- Helper: a key matching the story numbering pattern is never the
epic key `epic-<n>` (it starts with a digit, not `e`). -/
theorem storyPattern_ne_epicKey (k : String) (n : String)
    (hk : storyKeyNumbering k.data = true) :
    (k == "epic-" ++ n) = false := by
  cases hbe : k == "epic-" ++ n with
  | false => rfl
  | true =>
    have heq : k = "epic-" ++ n := by
      exact eq_of_beq hbe
    obtain ⟨c, cs2, hcons, hdig⟩ := storyKeyNumbering_head_digit k.data hk
    rw [heq] at hcons
    have : ("epic-" ++ n).data = 'e' :: ("pic-" ++ n).data := by
      rw [String.data_append]
      rfl
    rw [this] at hcons
    cases hcons
    simp [Char.isDigit] at hdig

/-- C10: a ledger key matching the story numbering pattern but
containing `retrospective` is never treated as a Story: `isStoryKey`
rejects it, `next-story` never returns it (every returned story key
satisfies `isStoryKey`), and removing such an entry from the ledger
changes nothing about an epic's story list, its all-done flag, or its
epic status — so it neither counts toward nor blocks epic
completion. -/
theorem retrospective_not_a_story :
    (∀ k : String, storyKeyNumbering k.data = true →
      strHasSub k "retrospective" = true → isStoryKey k = false) ∧
    (∀ (entries : List LedgerEntry) (info : NextStoryInfo),
      nextStory entries = NextStoryOut.story info →
      isStoryKey info.storyKey = true ∧ strHasSub info.storyKey "retrospective" = false) ∧
    (∀ (n : String) (l1 l2 : List LedgerEntry) (e : LedgerEntry),
      storyKeyNumbering e.key.data = true → strHasSub e.key "retrospective" = true →
      epicStories n (l1 ++ e :: l2) = epicStories n (l1 ++ l2)) := by
  refine ⟨?_, ?_, ?_⟩
  · intro k hpat hretro
    unfold isStoryKey
    rw [hretro]
    simp
  · intro entries info h
    have hsk := nextStory_returns_storyKey entries info h
    refine ⟨hsk, ?_⟩
    unfold isStoryKey at hsk
    rw [Bool.and_eq_true] at hsk
    cases hr : strHasSub info.storyKey "retrospective" with
    | false => rfl
    | true =>
      rw [hr] at hsk
      simp at hsk
  · intro n l1 l2 e hpat hretro
    have hnotstory : isStoryKey e.key = false := by
      unfold isStoryKey
      rw [hretro]
      simp
    unfold epicStories
    have hfilter : (l1 ++ e :: l2).filter
        (fun x => isStoryKey x.key && strBegins x.key (n ++ "-")) =
        (l1 ++ l2).filter (fun x => isStoryKey x.key && strBegins x.key (n ++ "-")) := by
      rw [List.filter_append, List.filter_append, List.filter_cons]
      rw [hnotstory]
      simp
    have hfind : (l1 ++ e :: l2).find? (fun x => x.key == "epic-" ++ n) =
        (l1 ++ l2).find? (fun x => x.key == "epic-" ++ n) := by
      rw [List.find?_append, List.find?_append]
      rw [List.find?_cons_of_neg _ (by simp [storyPattern_ne_epicKey e.key n hpat])]
    rw [hfilter, hfind]

/-- Witness for C10: the key `1-2-retrospective` matches the numbering
pattern, is rejected by `isStoryKey`, is skipped by `next-story` in
favour of the done signal, and its presence does not change epic 1's
story list or all-done flag. -/
theorem retrospective_not_a_story_witness :
    isStoryKey "1-2-retrospective" = false ∧
    nextStory [⟨"1-2-retrospective", "ready-for-dev"⟩] = NextStoryOut.allDone ∧
    epicStories "1" ([] ++ (⟨"1-2-retrospective", "backlog"⟩ : LedgerEntry) ::
        [⟨"1-1-api", "done"⟩]) =
      epicStories "1" ([] ++ [⟨"1-1-api", "done"⟩]) := by
  refine ⟨retrospective_not_a_story.1 "1-2-retrospective" (by decide) (by decide), by decide,
    retrospective_not_a_story.2.2 "1" [] [⟨"1-1-api", "done"⟩]
      ⟨"1-2-retrospective", "backlog"⟩ (by decide) (by decide)⟩

/-- Helper: `takeWhile` passes over a block of elements that all
satisfy the predicate. -/
theorem takeWhile_append_all {α : Type} (p : α → Bool) (xs ys : List α)
    (h : ∀ x ∈ xs, p x = true) :
    (xs ++ ys).takeWhile p = xs ++ ys.takeWhile p := by
  induction xs with
  | nil => simp
  | cons a l ih =>
    simp [List.takeWhile_cons, h a (by simp)]
    exact ih (fun x hx => h x (by simp [hx]))

/-- Helper: `dropWhile` discards a block of elements that all satisfy
the predicate. -/
theorem dropWhile_append_all {α : Type} (p : α → Bool) (xs ys : List α)
    (h : ∀ x ∈ xs, p x = true) :
    (xs ++ ys).dropWhile p = ys.dropWhile p := by
  induction xs with
  | nil => simp
  | cons a l ih =>
    simp [List.dropWhile_cons, h a (by simp)]
    exact ih (fun x hx => h x (by simp [hx]))

/-- Helper: word/dash key characters are not whitespace. -/
theorem wordDash_not_ws (c : Char) (h : isWordDash c = true) : isWs c = false := by
  cases hw : isWs c with
  | false => rfl
  | true =>
    exfalso
    unfold isWs at hw
    simp only [Bool.or_eq_true, beq_iff_eq] at hw
    rcases hw with ((h1 | h1) | h1) | h1 <;> (subst h1; exact absurd h (by decide))

/-- Helper: trimming strips exactly a leading all-whitespace block when
the remainder neither starts nor ends with whitespace. -/
theorem trimChars_ws_block (ind rest : List Char)
    (hind : ∀ c ∈ ind, isWs c = true)
    (hne : rest ≠ [])
    (hhead : ∀ c, rest.head? = some c → isWs c = false)
    (hlast : ∀ c, rest.getLast? = some c → isWs c = false) :
    trimChars (ind ++ rest) = rest := by
  unfold trimChars
  rw [dropWhile_append_all isWs ind rest hind]
  have hdrop : rest.dropWhile isWs = rest := by
    cases hr : rest with
    | nil => rfl
    | cons c cs =>
      have hc : isWs c = false := hhead c (by rw [hr]; rfl)
      simp [List.dropWhile_cons, hc]
  rw [hdrop]
  have hrev : rest.reverse.dropWhile isWs = rest.reverse := by
    cases hr : rest.reverse with
    | nil =>
      exact absurd (by simpa using congrArg List.reverse hr) hne
    | cons c cs =>
      have hc : isWs c = false := by
        apply hlast
        rw [← List.head?_reverse, hr]
        rfl
      simp [List.dropWhile_cons, hc]
  rw [hrev, List.reverse_reverse]

/-- Helper: the key/value regex on a canonical `key: value` body. -/
theorem keyValueSplit_canonical (key : String) (v : List Char)
    (hkey : key.data ≠ []) (hwd : ∀ c ∈ key.data, isWordDash c = true)
    (hv : v ≠ []) (hvh : ∀ c, v.head? = some c → isWs c = false) :
    keyValueSplit (key.data ++ ':' :: ' ' :: v) = some (key.data, v) := by
  have h1 : (':' :: ' ' :: v).takeWhile isWordDash = [] :=
    List.takeWhile_cons_of_neg (by decide)
  have h2 : (':' :: ' ' :: v).dropWhile isWordDash = ':' :: ' ' :: v :=
    List.dropWhile_cons_of_neg (by decide)
  have h3 : (' ' :: v).dropWhile isWs = v := by
    rw [List.dropWhile_cons_of_pos (by decide)]
    cases hr : v with
    | nil => exact absurd hr hv
    | cons c cs =>
      have hc : isWs c = false := hvh c (by rw [hr]; rfl)
      exact List.dropWhile_cons_of_neg (by simp [hc])
  unfold keyValueSplit
  rw [takeWhile_append_all isWordDash key.data _ hwd,
    dropWhile_append_all isWordDash key.data _ hwd, h1, h2]
  dsimp only
  rw [h3]
  simp only [List.append_nil]
  rw [if_neg (by simpa using hkey), if_pos trivial, if_neg (by simpa using hv)]

/-- Helper: the character data of a canonical ledger line. -/
theorem canonicalLine_data (key newStatus : String) (ind : List Char) :
    (String.mk ind ++ key ++ ": " ++ newStatus).data =
      ind ++ (key.data ++ ':' :: ' ' :: newStatus.data) := by
  simp [String.data_append, List.append_assoc]

/-- Helper: a canonical ledger line `indent ++ key ++ ": " ++ status`
(whitespace indent, word/dash key, status without surrounding
whitespace) matches its key, and rewriting it with the same status
value reproduces it verbatim. -/
theorem rewrittenLine_canonical_fixed (key newStatus : String) (ind : List Char)
    (hind : ∀ c ∈ ind, isWs c = true)
    (hkey : key.data ≠ []) (hwd : ∀ c ∈ key.data, isWordDash c = true)
    (hv : newStatus.data ≠ [])
    (hvh : ∀ c, newStatus.data.head? = some c → isWs c = false)
    (hvl : ∀ c, newStatus.data.getLast? = some c → isWs c = false) :
    lineMatchesKey key (String.mk ind ++ key ++ ": " ++ newStatus) = true ∧
    rewrittenLine key newStatus (String.mk ind ++ key ++ ": " ++ newStatus) =
      String.mk ind ++ key ++ ": " ++ newStatus := by
  have hrest_ne : key.data ++ ':' :: ' ' :: newStatus.data ≠ [] := by
    intro h
    have := congrArg List.length h
    simp at this
  have hrest_head : ∀ c, (key.data ++ ':' :: ' ' :: newStatus.data).head? = some c →
      isWs c = false := by
    intro c hc
    cases hk : key.data with
    | nil => exact absurd hk hkey
    | cons k0 ks =>
      rw [hk] at hc
      simp at hc
      rw [← hc]
      exact wordDash_not_ws k0 (hwd k0 (by rw [hk]; simp))
  have hrest_last : ∀ c, (key.data ++ ':' :: ' ' :: newStatus.data).getLast? = some c →
      isWs c = false := by
    intro c hc
    rw [show (key.data ++ ':' :: ' ' :: newStatus.data) =
        (key.data ++ [':', ' ']) ++ newStatus.data by simp] at hc
    rw [List.getLast?_append_of_ne_nil _ hv] at hc
    exact hvl c hc
  have htrim : trimChars ((String.mk ind ++ key ++ ": " ++ newStatus).data) =
      key.data ++ ':' :: ' ' :: newStatus.data := by
    rw [canonicalLine_data]
    exact trimChars_ws_block ind _ hind hrest_ne hrest_head hrest_last
  have hsplit := keyValueSplit_canonical key newStatus.data hkey hwd hv hvh
  constructor
  · unfold lineMatchesKey
    rw [htrim, hsplit]
    simp
  · unfold rewrittenLine
    have htake : ((String.mk ind ++ key ++ ": " ++ newStatus).data).takeWhile isWs = ind := by
      rw [canonicalLine_data]
      rw [takeWhile_append_all isWs ind _ hind]
      cases hk : key.data with
      | nil => exact absurd hk hkey
      | cons k0 ks =>
        have hk0 : isWs k0 = false := wordDash_not_ws k0 (hwd k0 (by rw [hk]; simp))
        have ht : List.takeWhile isWs (k0 :: (ks ++ ':' :: ' ' :: newStatus.data)) = [] :=
          List.takeWhile_cons_of_neg (by simp [hk0])
        rw [List.cons_append, ht]
        simp
    rw [htake]

/-- Helper: a successful `updateStatus` scan splits the file at the
first matching line and rewrites exactly that line. -/
theorem updateLines_some_decomp (key newStatus : String) :
    ∀ (lines out : List String), updateLines key newStatus lines = some out →
      ∃ l1 l l2, lines = l1 ++ l :: l2 ∧
        out = l1 ++ rewrittenLine key newStatus l :: l2 ∧
        lineMatchesKey key l = true ∧
        ∀ u ∈ l1, lineMatchesKey key u = false := by
  intro lines
  induction lines with
  | nil => intro out h; simp [updateLines] at h
  | cons l ls ih =>
    intro out h
    unfold updateLines at h
    by_cases hm : lineMatchesKey key l = true
    · rw [if_pos hm] at h
      cases h
      exact ⟨[], l, ls, by simp, by simp, hm, by simp⟩
    · simp only [Bool.not_eq_true] at hm
      rw [if_neg (by simp [hm])] at h
      cases hrec : updateLines key newStatus ls with
      | none => rw [hrec] at h; cases h
      | some ls2 =>
        rw [hrec] at h
        cases h
        obtain ⟨l1, lm, l2, hsplit, hout, hmatch, hall⟩ := ih ls2 hrec
        refine ⟨l :: l1, lm, l2, by simp [hsplit], by simp [hout], hmatch, ?_⟩
        intro u hu
        rcases List.mem_cons.mp hu with h1 | h2
        · exact h1 ▸ hm
        · exact hall u h2

/-- Helper: scanning past non-matching lines to a matching one. -/
theorem updateLines_append_first_match (key newStatus : String) :
    ∀ (l1 : List String) (l : String) (l2 : List String),
      (∀ u ∈ l1, lineMatchesKey key u = false) → lineMatchesKey key l = true →
      updateLines key newStatus (l1 ++ l :: l2) =
        some (l1 ++ rewrittenLine key newStatus l :: l2) := by
  intro l1
  induction l1 with
  | nil =>
    intro l l2 _ hm
    simp only [List.nil_append]
    unfold updateLines
    rw [if_pos hm]
  | cons u us ih =>
    intro l l2 hall hm
    have hu : lineMatchesKey key u = false := hall u (by simp)
    show updateLines key newStatus (u :: (us ++ l :: l2)) = _
    unfold updateLines
    rw [if_neg (by simp [hu])]
    rw [ih l l2 (fun x hx => hall x (by simp [hx])) hm]
    rfl

/-- C7 counterexample: the ledger line `  1-1-api:  done` (two spaces
after the colon) already carries the value `done` according to the
update regex, yet `update-status 1-1-api done` rewrites it to
`  1-1-api: done` — the file content changes, so the update is not
idempotent on a line that is not in canonical single-space form. -/
theorem updateStatus_same_value_not_noop :
    lineMatchesKey "1-1-api" "  1-1-api:  done" = true ∧
    lineValue "  1-1-api:  done" = some "done".data ∧
    updateLines "1-1-api" "done" ["  1-1-api:  done"] = some ["  1-1-api: done"] ∧
    fileAfterUpdate "1-1-api" "done" ["  1-1-api:  done"] ≠ ["  1-1-api:  done"] := by
  refine ⟨by decide, by decide, by decide, by decide⟩

/-- C7 (amended): every successful `update-status` rewrites exactly the
first line whose key matches, preserving all other lines and comments
verbatim; updating a key whose ledger line is canonical
(`indent` + `key: value` with a single space and no trailing
whitespace) and already carries the target value leaves the file
content unchanged.  (The counterexample shows the no-op guarantee fails
for non-canonical spacing: the matched line is normalised.) -/
theorem update_status_frame_and_idempotence :
    (∀ (key newStatus : String) (lines out : List String),
      updateLines key newStatus lines = some out →
      ∃ l1 l l2, lines = l1 ++ l :: l2 ∧
        out = l1 ++ rewrittenLine key newStatus l :: l2 ∧
        lineMatchesKey key l = true ∧
        ∀ u ∈ l1, lineMatchesKey key u = false) ∧
    (∀ (key newStatus : String) (ind : List Char) (l1 l2 : List String),
      (∀ c ∈ ind, isWs c = true) →
      key.data ≠ [] → (∀ c ∈ key.data, isWordDash c = true) →
      newStatus.data ≠ [] →
      (∀ c, newStatus.data.head? = some c → isWs c = false) →
      (∀ c, newStatus.data.getLast? = some c → isWs c = false) →
      (∀ u ∈ l1, lineMatchesKey key u = false) →
      fileAfterUpdate key newStatus
          (l1 ++ (String.mk ind ++ key ++ ": " ++ newStatus) :: l2) =
        l1 ++ (String.mk ind ++ key ++ ": " ++ newStatus) :: l2) := by
  constructor
  · intro key newStatus lines out h
    exact updateLines_some_decomp key newStatus lines out h
  · intro key newStatus ind l1 l2 hind hkey hwd hv hvh hvl hall
    obtain ⟨hmatch, hfix⟩ :=
      rewrittenLine_canonical_fixed key newStatus ind hind hkey hwd hv hvh hvl
    unfold fileAfterUpdate
    rw [updateLines_append_first_match key newStatus l1 _ l2 hall hmatch, hfix]

/-- Witness for C7: updating `1-1-api` to `done` on a ledger whose
matching line is canonical and already `done` leaves the file exactly
as it was, comment line included. -/
theorem update_status_frame_and_idempotence_witness :
    fileAfterUpdate "1-1-api" "done" ["# sprint", "  1-1-api: done", "  epic-1: backlog"] =
      ["# sprint", "  1-1-api: done", "  epic-1: backlog"] := by
  have h := update_status_frame_and_idempotence.2 "1-1-api" "done" [' ', ' ']
    ["# sprint"] ["  epic-1: backlog"] (by decide) (by decide) (by decide) (by decide)
    (by decide) (by decide) (by decide)
  simpa using h

/-- Helper: `digitsToNat` over a snoc. -/
theorem digitsToNat_append (ds : List Char) (c : Char) :
    digitsToNat (ds ++ [c]) = 10 * digitsToNat ds + digitVal c := by
  unfold digitsToNat
  rw [List.foldl_append]
  rfl

/-- Helper: `digitsToNat` agrees with `Nat.ofDigits` on the reversed
digit values. -/
theorem digitsToNat_eq_ofDigits (ds : List Char) :
    digitsToNat ds = Nat.ofDigits 10 ((ds.map digitVal).reverse) := by
  induction ds using List.reverseRecOn with
  | nil => rfl
  | append_singleton l a ih =>
    rw [digitsToNat_append, List.map_append, List.reverse_append]
    simp only [List.map_cons, List.map_nil, List.reverse_cons, List.reverse_nil,
      List.nil_append, List.singleton_append, Nat.ofDigits_cons, ih]
    ring

/-- Helper: a digit character's value is below 10. -/
theorem digitVal_lt (c : Char) (h : c.isDigit = true) : digitVal c < 10 := by
  simp [Char.isDigit] at h
  have h1 : 48 ≤ c.toNat := h.1
  have h2 : c.toNat ≤ 57 := h.2
  unfold digitVal
  omega

/-- Helper: a digit character's code point is 48 plus its value. -/
theorem digitVal_toNat (c : Char) (h : c.isDigit = true) : c.toNat = 48 + digitVal c := by
  simp [Char.isDigit] at h
  have h1 : 48 ≤ c.toNat := h.1
  have h2 : c.toNat ≤ 57 := h.2
  unfold digitVal
  omega

/-- Helper: digit characters with equal values are equal. -/
theorem digit_char_inj (c d : Char) (hc : c.isDigit = true) (hd : d.isDigit = true)
    (h : digitVal c = digitVal d) : c = d := by
  have h1 := digitVal_toNat c hc
  have h2 := digitVal_toNat d hd
  have h3 : c.toNat = d.toNat := by omega
  exact Char.eq_of_val_eq (UInt32.ext h3)

/-- Helper: `map digitVal` is injective on digit strings. -/
theorem digit_map_inj :
    ∀ (ds es : List Char), (∀ c ∈ ds, c.isDigit = true) →
      (∀ c ∈ es, c.isDigit = true) → ds.map digitVal = es.map digitVal → ds = es := by
  intro ds
  induction ds with
  | nil =>
    intro es _ _ h
    cases es with
    | nil => rfl
    | cons e es2 => simp at h
  | cons c cs ih =>
    intro es hds hes h
    cases es with
    | nil => simp at h
    | cons e es2 =>
      simp only [List.map_cons, List.cons.injEq] at h
      have hce : c = e := digit_char_inj c e (hds c (by simp)) (hes e (by simp)) h.1
      rw [hce, ih es2 (fun x hx => hds x (by simp [hx]))
        (fun x hx => hes x (by simp [hx])) h.2]

/-- Helper: unpack the canonical-digits predicate. -/
theorem canonicalDigits_parts (ds : List Char) (h : canonicalDigits ds = true) :
    ds ≠ [] ∧ (∀ c ∈ ds, c.isDigit = true) ∧
    (ds = ['0'] ∨ ds.head? ≠ some '0') := by
  unfold canonicalDigits at h
  rw [Bool.and_eq_true, Bool.and_eq_true] at h
  obtain ⟨⟨h1, h2⟩, h3⟩ := h
  refine ⟨by simpa using h1, fun c hc => by
    have := List.all_eq_true.mp h2 c hc
    simpa using this, ?_⟩
  rcases Bool.or_eq_true_iff.mp h3 with h4 | h4
  · exact Or.inl (by simpa using eq_of_beq h4)
  · right
    intro hcon
    rw [hcon] at h4
    simp at h4

/-- Helper: for a canonical nonzero-form digit string, `Nat.digits`
recovers the digit-value list. -/
theorem digits_of_canonical (ds : List Char) (hne : ds ≠ [])
    (hdig : ∀ c ∈ ds, c.isDigit = true) (hhead : ds.head? ≠ some '0') :
    Nat.digits 10 (digitsToNat ds) = (ds.map digitVal).reverse := by
  rw [digitsToNat_eq_ofDigits]
  apply Nat.digits_ofDigits 10 (by norm_num)
  · intro l hl
    rw [List.mem_reverse] at hl
    obtain ⟨c, hc, hval⟩ := List.mem_map.mp hl
    rw [← hval]
    exact digitVal_lt c (hdig c hc)
  · intro hLne
    obtain ⟨d0, hd0⟩ : ∃ d0, ds.head? = some d0 := by
      cases ds with
      | nil => exact absurd rfl hne
      | cons a l => exact ⟨a, rfl⟩
    have hd0mem : d0 ∈ ds := List.mem_of_mem_head? (by rw [hd0]; rfl)
    have h1 : ((ds.map digitVal).reverse).getLast? = some (digitVal d0) := by
      rw [List.getLast?_reverse, List.head?_map, hd0]
      rfl
    rw [List.getLast?_eq_getLast _ hLne] at h1
    have h2 := Option.some.inj h1
    rw [h2]
    intro hzero
    apply hhead
    have hd0dig : d0.isDigit = true := hdig d0 hd0mem
    have hd00 : d0 = '0' :=
      digit_char_inj d0 '0' hd0dig (by decide) (by rw [hzero]; decide)
    rw [hd0, hd00]

/-- Helper: a canonical digit string is determined by its `parseInt`
value (the numeric injectivity behind epic-number grouping). -/
theorem digitsToNat_inj (ds es : List Char)
    (hds : canonicalDigits ds = true) (hes : canonicalDigits es = true)
    (h : digitsToNat ds = digitsToNat es) : ds = es := by
  obtain ⟨hdne, hddig, hdz⟩ := canonicalDigits_parts ds hds
  obtain ⟨hene, hedig, hez⟩ := canonicalDigits_parts es hes
  rcases hdz with hd0 | hdhead
  · rcases hez with he0 | hehead
    · rw [hd0, he0]
    · exfalso
      rw [hd0] at h
      have hz : digitsToNat es = 0 := by
        rw [← h]
        rfl
      have hdg := digits_of_canonical es hene hedig hehead
      rw [hz] at hdg
      simp at hdg
      exact hene hdg
  · rcases hez with he0 | hehead
    · exfalso
      rw [he0] at h
      have hz : digitsToNat ds = 0 := by
        rw [h]
        rfl
      have hdg := digits_of_canonical ds hdne hddig hdhead
      rw [hz] at hdg
      simp at hdg
      exact hdne hdg
    · have h1 := digits_of_canonical ds hdne hddig hdhead
      have h2 := digits_of_canonical es hene hedig hehead
      rw [h] at h1
      rw [h2] at h1
      have h3 : ds.map digitVal = es.map digitVal := by
        have h4 := congrArg List.reverse h1
        simp at h4
        exact h4.symm
      exact digit_map_inj ds es hddig hedig h3

/-- Helper: the exit code of the chaining loop does not depend on the
epic-check outcomes — `check_epic_complete` always returns 0. -/
theorem chainLoop_exit_indep_epic (cm : Bool) (env : Nat → IterEnv) (a b : EpicAction) :
    ∀ (fuel i : Nat), (chainLoop cm (setEpicAction env a) fuel i).1 =
      (chainLoop cm (setEpicAction env b) fuel i).1 := by
  intro fuel
  induction fuel with
  | zero => intro i; rfl
  | succ fuel ih =>
    intro i
    rw [chainLoop, chainLoop]
    simp only [setEpicAction]
    by_cases hw : (env i).wallClockFired = true
    · simp [hw]
    · simp only [Bool.not_eq_true] at hw
      simp only [hw, Bool.false_eq_true, if_false]
      cases hd : (env i).discover with
      | allDone => rfl
      | needsCS =>
        by_cases hcs : (env i).csOk = true
        · simpa [hcs] using ih (i + 1)
        · simp only [Bool.not_eq_true] at hcs
          simp [hcs]
      | found ff =>
        cases ff with
        | false => rfl
        | true =>
          dsimp only [Bool.not_true, Bool.not_false]
          by_cases ht : (env i).taskLoopOk = true
          · simp only [ht, Bool.not_true, Bool.false_eq_true, if_false]
            by_cases hv : (env i).validationOk = true
            · simp only [hv, Bool.not_true, Bool.false_eq_true, if_false]
              by_cases hc : (env i).crOk = true
              · simp only [hc, Bool.not_true, Bool.false_eq_true, if_false]
                cases cm with
                | false => rfl
                | true => simpa using ih (i + 1)
              · simp only [Bool.not_eq_true] at hc
                simp [hc]
            · simp only [Bool.not_eq_true] at hv
              simp [hv]
          · simp only [Bool.not_eq_true] at ht
            simp [ht]

/-- Helper: a string always begins with itself, whatever follows. -/
theorem charsBegins_refl_append : ∀ (p rest : List Char),
    charsBegins p (p ++ rest) = true := by
  intro p
  induction p with
  | nil => intro rest; rfl
  | cons c cs ih =>
    intro rest
    simp only [List.cons_append]
    unfold charsBegins
    simp [ih rest]

/-- Helper: among keys whose leading block is all digits, beginning
with `<digits>-` pins down the digit block exactly (a digit is never a
dash). -/
theorem charsBegins_digits_dash :
    ∀ (es ds rest : List Char), (∀ c ∈ es, c.isDigit = true) →
      (∀ c ∈ ds, c.isDigit = true) →
      charsBegins (es ++ ['-']) (ds ++ '-' :: rest) = true → es = ds := by
  intro es
  induction es with
  | nil =>
    intro ds rest _ hds h
    cases ds with
    | nil => rfl
    | cons d ds2 =>
      exfalso
      simp only [List.nil_append, List.cons_append] at h
      unfold charsBegins at h
      rw [Bool.and_eq_true] at h
      have hd : d = '-' := (eq_of_beq h.1).symm
      have := hds d (by simp)
      rw [hd] at this
      exact absurd this (by decide)
  | cons e es2 ih =>
    intro ds rest hes hds h
    cases ds with
    | nil =>
      exfalso
      simp only [List.cons_append, List.nil_append] at h
      unfold charsBegins at h
      rw [Bool.and_eq_true] at h
      have he : e = '-' := eq_of_beq h.1
      have := hes e (by simp)
      rw [he] at this
      exact absurd this (by decide)
    | cons d ds2 =>
      simp only [List.cons_append] at h
      unfold charsBegins at h
      rw [Bool.and_eq_true] at h
      have hed : e = d := eq_of_beq h.1
      rw [hed, ih ds2 rest (fun c hc => hes c (by simp [hc]))
        (fun c hc => hds c (by simp [hc])) h.2]

/-- Helper: the data of the epic prefix string `<digits>-`. -/
theorem epicPrefix_data (es : List Char) :
    (String.mk es ++ "-").data = es ++ ['-'] := by
  rw [String.data_append]

/-- Properties of the intended Phase 4 (`checkEpicCompleteIntended`),
supporting the C5 bug report: it promotes an epic to `done` only when
its all-done flag holds — hence, on a ledger whose story keys carry
canonical epic numbers, only when every entry that is a story key
sharing the epic's number has status `done` — and only when build,
tests and the optional epic script all pass while the epic is not
already done; when validation fails with all stories done, it marks the
epic `review`; and the chain controller's control flow and continuation
to the next story are independent of the epic-check outcome, so an epic
validation failure never stops the pipeline. -/
theorem epicCompleteIntended_spec :
    (∀ (env : EpicCheckEnv) (entries : List LedgerEntry) (storyKey : String),
      checkEpicCompleteIntended env entries storyKey = EpicAction.markDone →
      env.buildOk = true ∧ env.testOk = true ∧
      (env.scriptPresent = true → env.scriptOk = true) ∧
      (epicStories (String.mk (epicDigits storyKey)) entries).allDone = true ∧
      ¬ (epicStories (String.mk (epicDigits storyKey)) entries).epicStatus = "done") ∧
    (∀ (es : List Char) (entries : List LedgerEntry) (e : LedgerEntry),
      canonicalDigits es = true →
      (epicStories (String.mk es) entries).allDone = true →
      e ∈ entries → isStoryKey e.key = true →
      canonicalDigits (epicDigits e.key) = true →
      epicNumFromKey e.key = some (digitsToNat es) →
      e.status = "done") ∧
    (∀ (env : EpicCheckEnv) (entries : List LedgerEntry) (storyKey : String),
      env.skipValidation = false → ¬ (epicDigits storyKey).isEmpty = true →
      (epicStories (String.mk (epicDigits storyKey)) entries).allDone = true →
      ¬ (epicStories (String.mk (epicDigits storyKey)) entries).epicStatus = "done" →
      (env.buildOk = false ∨ env.testOk = false ∨
        (env.scriptPresent = true ∧ env.scriptOk = false)) →
      checkEpicCompleteIntended env entries storyKey = EpicAction.markReview) ∧
    (∀ (cm : Bool) (env : Nat → IterEnv) (a b : EpicAction) (fuel i : Nat),
      (chainLoop cm (setEpicAction env a) fuel i).1 =
        (chainLoop cm (setEpicAction env b) fuel i).1) ∧
    (∀ (env : Nat → IterEnv) (fuel i : Nat),
      (env i).wallClockFired = false → (env i).discover = DiscoverOut.found true →
      (env i).taskLoopOk = true → (env i).validationOk = true → (env i).crOk = true →
      chainLoop true env (fuel + 1) i =
        ((chainLoop true env fuel (i + 1)).1,
         (PipeEvent.discovery i ::
            (if (env i).readyForDev then
              [PipeEvent.statusUpdate "ready-for-dev" "in-progress"] else []) ++
          (if (env i).crMarkedDone then
            [PipeEvent.statusUpdate "in-progress" "done"] else []) ++
          [PipeEvent.epicChecked (env i).epicAction, PipeEvent.storyCompleted]) ++
         (chainLoop true env fuel (i + 1)).2)) := by
  refine ⟨?_, ?_, ?_, ?_, ?_⟩
  · intro env entries storyKey h
    unfold epicDigits
    unfold checkEpicCompleteIntended at h
    by_cases hskip : env.skipValidation = true
    · rw [if_pos hskip] at h
      cases h
    · simp only [Bool.not_eq_true] at hskip
      rw [if_neg (by simp [hskip])] at h
      dsimp only at h
      by_cases hds : (storyKey.data.takeWhile Char.isDigit).isEmpty = true
      · rw [if_pos hds] at h
        cases h
      · rw [if_neg hds] at h
        by_cases hA : (epicStories (String.mk (storyKey.data.takeWhile Char.isDigit))
            entries).allDone = true
        · rw [if_neg (by simp [hA])] at h
          by_cases hS : (epicStories (String.mk (storyKey.data.takeWhile Char.isDigit))
              entries).epicStatus == "done"
          · rw [if_pos hS] at h
            cases h
          · rw [if_neg hS] at h
            by_cases hB : env.buildOk = true
            · rw [if_neg (by simp [hB])] at h
              by_cases hT : env.testOk = true
              · rw [if_neg (by simp [hT])] at h
                by_cases hP : env.scriptPresent = true
                · by_cases hO : env.scriptOk = true
                  · refine ⟨hB, hT, fun _ => hO, hA, ?_⟩
                    intro hcon
                    exact hS (by simp [hcon])
                  · simp only [Bool.not_eq_true] at hO
                    rw [if_pos (by simp [hP, hO])] at h
                    cases h
                · simp only [Bool.not_eq_true] at hP
                  rw [if_neg (by simp [hP])] at h
                  refine ⟨hB, hT, fun hcon => absurd hcon (by simp [hP]), hA, ?_⟩
                  intro hcon
                  exact hS (by simp [hcon])
              · simp only [Bool.not_eq_true] at hT
                rw [if_pos (by simp [hT])] at h
                cases h
            · simp only [Bool.not_eq_true] at hB
              rw [if_pos (by simp [hB])] at h
              cases h
        · simp only [Bool.not_eq_true] at hA
          rw [if_pos (by simp [hA])] at h
          cases h
  · intro es entries e hcanes hallDone hmem hstory hcankey hnum
    unfold epicDigits at hcankey
    unfold epicNumFromKey at hnum
    by_cases hds : (e.key.data.takeWhile Char.isDigit).isEmpty = true
    · rw [if_pos hds] at hnum
      cases hnum
    · rw [if_neg hds] at hnum
      cases hrest : e.key.data.dropWhile Char.isDigit with
      | nil =>
        rw [hrest] at hnum
        cases hnum
      | cons c rest2 =>
        rw [hrest] at hnum
        dsimp only at hnum
        by_cases hc : c = '-'
        · rw [if_pos hc] at hnum
          have hval := Option.some.inj hnum
          have hdseq : e.key.data.takeWhile Char.isDigit = es :=
            digitsToNat_inj _ es hcankey hcanes hval
          have hkeydata : e.key.data = es ++ '-' :: rest2 := by
            conv_lhs => rw [← List.takeWhile_append_dropWhile Char.isDigit e.key.data]
            rw [hdseq, hrest, hc]
          have hbeg : strBegins e.key (String.mk es ++ "-") = true := by
            unfold strBegins
            rw [epicPrefix_data, hkeydata]
            have h2 := charsBegins_refl_append (es ++ ['-']) rest2
            rw [List.append_assoc] at h2
            exact h2
          unfold epicStories at hallDone
          dsimp only at hallDone
          rw [Bool.and_eq_true] at hallDone
          have hpred : (isStoryKey e.key && strBegins e.key (String.mk es ++ "-")) = true := by
            rw [hstory, hbeg]
            rfl
          have hmemf : e ∈ entries.filter
              (fun x => isStoryKey x.key && strBegins x.key (String.mk es ++ "-")) :=
            List.mem_filter.mpr ⟨hmem, hpred⟩
          have hall := List.all_eq_true.mp hallDone.2 e hmemf
          exact eq_of_beq (by simpa using hall)
        · rw [if_neg hc] at hnum
          cases hnum
  · intro env entries storyKey hskip hds hA hS hfail
    unfold epicDigits at hds hA hS
    unfold checkEpicCompleteIntended
    rw [if_neg (by simp [hskip])]
    dsimp only
    rw [if_neg hds, if_neg (by simp [hA]), if_neg (by simpa using hS)]
    rcases hfail with hB | hT | hPO
    · rw [if_pos (by simp [hB])]
    · by_cases hB : env.buildOk = true
      · rw [if_neg (by simp [hB]), if_pos (by simp [hT])]
      · simp only [Bool.not_eq_true] at hB
        rw [if_pos (by simp [hB])]
    · by_cases hB : env.buildOk = true
      · by_cases hT : env.testOk = true
        · rw [if_neg (by simp [hB]), if_neg (by simp [hT]),
            if_pos (by simp [hPO.1, hPO.2])]
        · simp only [Bool.not_eq_true] at hT
          rw [if_neg (by simp [hB]), if_pos (by simp [hT])]
      · simp only [Bool.not_eq_true] at hB
        rw [if_pos (by simp [hB])]
  · exact chainLoop_exit_indep_epic
  · intro env fuel i hw hd ht hv hc
    rw [chainLoop]
    simp only [hw, hd, ht, hv, hc, Bool.false_eq_true, if_false, Bool.not_true,
      Bool.not_false, if_true]

/-- Concrete instances of the intended-phase properties: with both
stories of epic 1 done and its entry still `backlog`, passing
validation would promote the epic and a failing build would demote it
to review; the sibling property instantiated at story `1-2-ui`
confirms it is done. -/
theorem epicCompleteIntended_spec_witness :
    checkEpicCompleteIntended ⟨false, true, true, false, true⟩ epicLedger "1-1-api" =
      EpicAction.markDone ∧
    checkEpicCompleteIntended ⟨false, false, true, false, true⟩ epicLedger "1-1-api" =
      EpicAction.markReview ∧
    (⟨"1-2-ui", "done"⟩ : LedgerEntry).status = "done" := by
  have h := epicCompleteIntended_spec
  refine ⟨by decide, ?_, ?_⟩
  · exact h.2.2.1 ⟨false, false, true, false, true⟩ epicLedger "1-1-api" rfl (by decide)
      (by decide) (by decide) (Or.inl rfl)
  · exact h.2.1 ['1'] epicLedger ⟨"1-2-ui", "done"⟩ (by decide) (by decide)
      (by simp [epicLedger]) (by decide) (by decide) (by decide)

/-- C5 (code bug): the shipped `check_epic_complete` never fires.  Its
`epic_num` extraction `grep -oE` with pattern `^\d+` matches a run of
literal `d` characters (POSIX ERE has no `\d`), which is empty for
every key matching the story numbering pattern, so the function always
returns at the `[ -z "$epic_num" ]` guard: for every environment and
ledger the action is `noAction` — the epic is never validated, never
promoted to `done` and never marked `review`, although on the concrete
ledger `epicLedger` all stories of epic 1 are done and the epic entry
still reads `backlog`.  The claim's behaviour holds of the intended
phase (`epicCompleteIntended_spec`); the code diverges from it. -/
theorem epic_check_dead_code :
    (∀ (env : EpicCheckEnv) (entries : List LedgerEntry) (storyKey : String),
      storyKeyNumbering storyKey.data = true →
      checkEpicComplete env entries storyKey = EpicAction.noAction) ∧
    (epicStories "1" epicLedger).allDone = true ∧
    (epicStories "1" epicLedger).epicStatus = "backlog" := by
  refine ⟨?_, by decide, by decide⟩
  intro env entries storyKey hpat
  unfold checkEpicComplete
  by_cases hskip : env.skipValidation = true
  · rw [if_pos hskip]
  · rw [if_neg hskip]
    dsimp only
    obtain ⟨c, cs2, hcons, hdig⟩ := storyKeyNumbering_head_digit storyKey.data hpat
    have hcd : (c == 'd') = false := by
      cases hbe : c == 'd' with
      | false => rfl
      | true =>
        have hc : c = 'd' := eq_of_beq hbe
        rw [hc] at hdig
        exact absurd hdig (by decide)
    have hds : grepEpicNum storyKey = [] := by
      unfold grepEpicNum
      rw [hcons]
      exact List.takeWhile_cons_of_neg (by simp [hcd])
    rw [hds]
    rfl

/-- Witness for C5: at the concrete failing input — story key
`1-1-api`, ledger `epicLedger` with every story of epic 1 done and the
epic entry `backlog` — the shipped phase does nothing, both when build
and tests would pass (no promotion to done) and when the build would
fail (no demotion to review). -/
theorem epic_check_dead_code_witness :
    checkEpicComplete ⟨false, true, true, false, true⟩ epicLedger "1-1-api" =
      EpicAction.noAction ∧
    checkEpicComplete ⟨false, false, true, false, true⟩ epicLedger "1-1-api" =
      EpicAction.noAction := by
  have h := epic_check_dead_code
  exact ⟨h.1 ⟨false, true, true, false, true⟩ epicLedger "1-1-api" (by decide),
    h.1 ⟨false, false, true, false, true⟩ epicLedger "1-1-api" (by decide)⟩

/-- Witness for C2 at concrete data: with the default budgets, a poll at
elapsed 480s times out, a poll at elapsed 181s with 181s since the last
change stalls, and natural termination is classified by the marker. -/
theorem supervisor_attempt_classification_witness :
    pollStep ⟨480, 180⟩ 100 ⟨100, 7⟩ ⟨580, 7⟩ = PollStep.timedOut ∧
    pollStep ⟨480, 180⟩ 100 ⟨100, 7⟩ ⟨281, 7⟩ = PollStep.stalled ∧
    classifyAttempt WatchOutcome.finished "ok <promise>COMPLETE</promise>" =
      AttemptOutcome.passed ∧
    classifyAttempt WatchOutcome.finished "no marker here" = AttemptOutcome.failed := by
  have h := supervisor_attempt_classification
  refine ⟨(h.1 _ _ _ _).mpr (by decide), (h.2.1 _ _ _ _).mpr (by decide), ?_, ?_⟩
  · exact (h.2.2.2.2.1 _).mpr (by decide)
  · exact (h.2.2.2.2.2.1 _).mpr (by decide)

end Ralph
